import Mathlib

/-!
# quote-scraper: a shallow embedding of `main.go`

The program fetches pages `1..maxPages` of a quotes site with a pool of
goroutines, merges the quotes through a buffered channel and writes them to a
CSV file.  The three functions of the source are embedded:

* `scrapePage`  (main.go 91-139): retry loop, status check, extraction;
* `exportToCSV` (main.go 141-164): header row, one row per quote;
* `main`        (main.go 22-89): the scheduling loop, the workers, the closer
  goroutine and the collector, as a small-step transition system over an
  explicit state (sequentially consistent interleaving of the goroutines).

The HTTP client, the HTML parser and the CSV writer are libraries; they enter
the embedding as parameters (`Env`, `CsvSink`).  Logging is not modelled.

Page numbers are natural numbers: `currentPage` starts at 1 and only grows,
and it never exceeds `maxPages + 1` (`SchedInv`), so the Go `int` does not
wrap; a negative `-pages` flag behaves as `maxPages = 0`.
-/

namespace QuoteScraper

/-! ## Data model -/

/-- The record `Quote` of main.go 17-20. -/
structure Quote where
  Text : String
  Author : String
deriving DecidableEq, Repr

/-- The errors `scrapePage` can return: the transport error of the last
`http.Get`, the `fmt.Errorf("status code %d", ...)` error, or the error of
`goquery.NewDocumentFromReader`. -/
inductive ScrapeError where
  | transport (e : String)
  | status (code : Int)
  | parse (e : String)
deriving DecidableEq, Repr

/-- What `scrapePage` reads of an `*http.Response`. -/
structure Response where
  StatusCode : Int
  Body : String
deriving DecidableEq, Repr

/-- One element matching `.quote`: the text content of its `.text` and of its
`.author` descendants (`s.Find(".text").Text()`, `s.Find(".author").Text()`). -/
structure QuoteElem where
  text : String
  author : String
deriving DecidableEq, Repr

/-- What `scrapePage` asks of a parsed document: the elements matching
`.quote` in document order and `doc.Find(".next").Length()`. -/
structure Document where
  quoteElems : List QuoteElem
  nextLength : Nat
deriving DecidableEq, Repr

/-- The library services used by `scrapePage`.  `get url n` is the outcome of
the GET issued for `url` after `n` earlier GETs of the same call;
`newDocument` is `goquery.NewDocumentFromReader`. -/
structure Env where
  get : String → Nat → Except String Response
  newDocument : String → Except String Document

/-- The observable effects of one `scrapePage` call, in program order. -/
inductive Effect where
  | httpGet (url : String)
  | sleep (seconds : Nat)
  | closeBody
deriving DecidableEq, Repr

/-- The triple returned by `scrapePage`; `quotes = []` stands for a nil
slice and `err = none` for a nil error. -/
structure ScrapeResult where
  quotes : List Quote
  hasNext : Bool
  err : Option ScrapeError
deriving DecidableEq, Repr

/-- The constant `http.StatusOK`. -/
def StatusOK : Int := 200

/-! ## scrapePage -/

/-- The URL of main.go 92. -/
def pageURL (page : Nat) : String :=
  "https://quotes.toscrape.com/page/" ++ toString page ++ "/"

/-- The state of the retry loop of main.go 99-108: the variables `resp` and
`err`, the number of GETs issued so far and the effects so far. -/
structure RetryState where
  resp : Option Response
  err : Option String
  issued : Nat
  trace : List Effect
deriving DecidableEq, Repr

/-- The loop `for retries := 3; retries > 0; retries--` of main.go 99-108,
entered with the current value of `retries`.  A successful GET breaks out of
the loop; a failed one sleeps `4 - retries` seconds and goes round again. -/
def retryLoop (env : Env) (url : String) : Nat → RetryState → RetryState
  | 0, st => st
  | retries + 1, st =>
    match env.get url st.issued with
    | .ok r =>
      { resp := some r, err := none, issued := st.issued + 1,
        trace := st.trace ++ [Effect.httpGet url] }
    | .error e =>
      retryLoop env url retries
        { resp := none, err := some e, issued := st.issued + 1,
          trace := st.trace ++ [Effect.httpGet url, Effect.sleep (4 - (retries + 1))] }

/-- The extraction of main.go 126-133: one `Quote` per `.quote` element, in
document order, the two texts taken as they are. -/
def extractQuotes (doc : Document) : List Quote :=
  doc.quoteElems.map (fun s => { Text := s.text, Author := s.author })

/-- The function `scrapePage` of main.go 91-139, with the trace of its
effects.  The loop runs at least once, so it never ends with `resp` and `err`
both nil; the branch for that case is unreachable (see
`retryLoop_resp_or_err`). -/
def scrapePage (env : Env) (page : Nat) : ScrapeResult × List Effect :=
  let url := pageURL page
  let st := retryLoop env url 3 { resp := none, err := none, issued := 0, trace := [] }
  match st.err, st.resp with
  | some e, _ => ({ quotes := [], hasNext := false, err := some (.transport e) }, st.trace)
  | none, none => ({ quotes := [], hasNext := false, err := none }, st.trace)
  | none, some resp =>
    if resp.StatusCode ≠ StatusOK then
      ({ quotes := [], hasNext := false, err := some (.status resp.StatusCode) },
        st.trace ++ [Effect.closeBody])
    else
      match env.newDocument resp.Body with
      | .error e =>
        ({ quotes := [], hasNext := false, err := some (.parse e) },
          st.trace ++ [Effect.closeBody])
      | .ok doc =>
        ({ quotes := extractQuotes doc, hasNext := decide (doc.nextLength > 1), err := none },
          st.trace ++ [Effect.closeBody])

/-- The number of GETs in a trace. -/
def getCount (tr : List Effect) : Nat :=
  (tr.filter (fun e => match e with | .httpGet _ => true | _ => false)).length

/-- The total of the sleeps in a trace, in seconds. -/
def totalSleep (tr : List Effect) : Nat :=
  (tr.map (fun e => match e with | .sleep s => s | _ => 0)).sum

/-! ## exportToCSV -/

/-- An error of the file system or of the CSV writer. -/
structure FileError where
  msg : String
deriving DecidableEq, Repr

/-- The library services used by `exportToCSV`, over a sink state `σ`:
`create` is `os.Create` followed by `csv.NewWriter`, `write` is
`(*csv.Writer).Write`, `flush` is `(*csv.Writer).Flush` (which returns
nothing) and `close` is `(*os.File).Close` (whose result the `defer`
discards). -/
structure CsvSink (σ : Type) where
  create : String → Except FileError σ
  write : σ → List String → σ × Option FileError
  flush : σ → σ
  close : σ → σ

/-- The outcome of `exportToCSV`: the returned error, the rows handed to
`writer.Write` in call order, and the sink after the deferred `Flush` and
`Close` (`none` when the file could not be created). -/
structure ExportResult (σ : Type) where
  err : Option FileError
  rows : List (List String)
  final : Option σ

/-- The header row of main.go 154. -/
def headerRow : List String := ["Quote", "Author"]

/-- The row written for one quote, main.go 159. -/
def quoteRow (q : Quote) : List String := [q.Text, q.Author]

/-- The loop of main.go 158-162 from sink state `s`, having handed `rows` so
far: it stops at the first `Write` that reports an error. -/
def writeQuotes {σ : Type} (sink : CsvSink σ) :
    σ → List Quote → List (List String) → σ × List (List String) × Option FileError
  | s, [], rows => (s, rows, none)
  | s, q :: qs, rows =>
    match sink.write s (quoteRow q) with
    | (s1, some e) => (s1, rows ++ [quoteRow q], some e)
    | (s1, none) => writeQuotes sink s1 qs (rows ++ [quoteRow q])

/-- The function `exportToCSV` of main.go 141-164.  The deferred calls run in
reverse order of registration: `writer.Flush()` first, then
`file.Close()`. -/
def exportToCSV {σ : Type} (sink : CsvSink σ) (fileName : String) (quotes : List Quote) :
    ExportResult σ :=
  match sink.create fileName with
  | .error e => { err := some e, rows := [], final := none }
  | .ok s0 =>
    match sink.write s0 headerRow with
    | (s1, some e) =>
      { err := some e, rows := [headerRow], final := some (sink.close (sink.flush s1)) }
    | (s1, none) =>
      match writeQuotes sink s1 quotes [headerRow] with
      | (s2, rows, err) =>
        { err := err, rows := rows, final := some (sink.close (sink.flush s2)) }

/-- How the process ends: the exit code and what was printed on stdout. -/
structure Exit where
  code : Nat
  stdout : String
deriving DecidableEq, Repr

/-- The end of `main`, main.go 82-87, for the aggregate `allQuotes`: exit
code 1 and nothing printed when `exportToCSV` returns an error, the summary
line and exit code 0 otherwise. -/
def finish {σ : Type} (sink : CsvSink σ) (output : String) (allQuotes : List Quote) : Exit :=
  match (exportToCSV sink output allQuotes).err with
  | some _ => { code := 1, stdout := "" }
  | none =>
    { code := 0,
      stdout := "Scraped " ++ toString allQuotes.length ++ " quotes and saved to " ++ output }

/-! ### Two sinks

`memorySink` keeps the rows it is given and never fails.  `fullDevice`
follows `encoding/csv` over `bufio` (buffer of 4096 bytes) over a file that
can be created but rejects every write, like `/dev/full`. -/

/-- A sink that stores the rows in memory; no operation fails. -/
def memorySink : CsvSink (List (List String)) where
  create := fun _ => .ok []
  write := fun s row => (s ++ [row], none)
  flush := fun s => s
  close := fun s => s

/-- The sink `sink` with a log: every call of `Write` appends the row it is
given to the log, whether the write succeeds or not; the sink underneath
behaves as before.  The log is kept by the writer, not by `exportToCSV`: it
holds exactly the rows the writer was handed, in call order. -/
def traced {σ : Type} (sink : CsvSink σ) : CsvSink (σ × List (List String)) where
  create := fun fileName =>
    match sink.create fileName with
    | .ok s => .ok (s, [])
    | .error e => .error e
  write := fun st row => (((sink.write st.1 row).1, st.2 ++ [row]), (sink.write st.1 row).2)
  flush := fun st => (sink.flush st.1, st.2)
  close := fun st => (sink.close st.1, st.2)

/-- The sink state after `Write` has been called on each row of `rows` in
turn, from the state `s`. -/
def handRows {σ : Type} (sink : CsvSink σ) (s : σ) (rows : List (List String)) : σ :=
  rows.foldl (fun st row => (sink.write st row).1) s

/-- The test `unicode.IsSpace`. -/
def isSpaceRune (c : Char) : Bool :=
  let n := c.toNat
  (9 ≤ n && n ≤ 13) || n == 0x20 || n == 0x85 || n == 0xA0 || n == 0x1680 ||
    (0x2000 ≤ n && n ≤ 0x200A) || n == 0x2028 || n == 0x2029 || n == 0x202F ||
    n == 0x205F || n == 0x3000

/-- The test `fieldNeedsQuotes` of `encoding/csv` for the comma delimiter. -/
def fieldNeedsQuotes (field : String) : Bool :=
  match field.data with
  | [] => false
  | c :: cs =>
    if field = "\\." then true
    else if (c :: cs).any (fun d => d == '\n' || d == '\r' || d == '"' || d == ',') then true
    else isSpaceRune c

/-- One field as `encoding/csv` writes it (`UseCRLF` off): verbatim, or
between double quotes with every double quote doubled. -/
def encodeField (field : String) : String :=
  if fieldNeedsQuotes field then
    "\"" ++ String.mk (field.data.flatMap (fun c => if c == '"' then ['"', '"'] else [c])) ++ "\""
  else field

/-- One record as `encoding/csv` writes it: the fields separated by commas,
ended by a line feed. -/
def encodeRow (row : List String) : String :=
  String.intercalate "," (row.map encodeField) ++ "\n"

/-- The default buffer size of `bufio.NewWriter`. -/
def bufferSize : Nat := 4096

/-- A buffered CSV writer over a device that rejects writes: the number of
bytes waiting in the buffer and the sticky error of the buffer. -/
structure FullDeviceWriter where
  buffered : Nat
  err : Option FileError
deriving DecidableEq, Repr

/-- The error of a write to a full device. -/
def noSpace : FileError := { msg := "no space left on device" }

/-- The sink over a full device.  A row goes to the buffer; the device is
written, and fails, only when the buffer overflows or on `Flush` of a
non-empty buffer.  The failure is kept in `err`; `Write` reports it, `Flush`
does not. -/
def fullDevice : CsvSink FullDeviceWriter where
  create := fun _ => .ok { buffered := 0, err := none }
  write := fun s row =>
    match s.err with
    | some e => (s, some e)
    | none =>
      if s.buffered + (encodeRow row).utf8ByteSize ≤ bufferSize then
        ({ s with buffered := s.buffered + (encodeRow row).utf8ByteSize }, none)
      else ({ buffered := bufferSize, err := some noSpace }, some noSpace)
  flush := fun s =>
    match s.err with
    | some _ => s
    | none => if s.buffered = 0 then s else { s with err := some noSpace }
  close := fun s => s

/-! ## main: the worker pool as a transition system -/

/-- The capacity of `sem`, main.go 41. -/
def semCapacity : Nat := 5

/-- The capacity of `quotesChan`, main.go 38. -/
def chanCapacity : Nat := 100

/-- Where the main goroutine stands, by the line of main.go it executes
next: the loop test (46), `wg.Add(1)` (47), the send on `sem` (48), the `go`
statement of the worker (50), `currentPage++` (68), the `go` statement of the
closer (71), the range loop over `quotesChan` (78), the call of `exportToCSV`
(82). -/
inductive MainPc where
  | loopCheck
  | wgAdd
  | semSend
  | goWorker
  | incrPage
  | goCloser
  | collect
  | exporting
deriving DecidableEq, Repr

/-- Where a worker goroutine (main.go 50-67) stands: before the call of
`scrapePage`; in the loop of line 60 with the quotes still to send and the
value `next`; in the sleep of line 65; before the deferred `<-sem`; before
the deferred `wg.Done()`; returned. -/
inductive WorkerPc where
  | scrape
  | publish (rest : List Quote) (next : Bool)
  | sleeping
  | releaseSem
  | wgDone
  | finished
deriving DecidableEq, Repr

/-- A worker goroutine: its argument `page` and its position. -/
structure Worker where
  page : Nat
  pc : WorkerPc
deriving DecidableEq, Repr

/-- Where the goroutine of main.go 71-74 stands. -/
inductive CloserPc where
  | notStarted
  | waiting
  | closing
  | finished
deriving DecidableEq, Repr

/-- The shared state of `main`: the variables `hasNext` and `currentPage`,
the counter of `wg`, the number of tokens in `sem`, the goroutines, the
buffer of `quotesChan` and whether it is closed, the slice `allQuotes`, and
whether a goroutine has panicked. -/
structure State where
  hasNext : Bool
  currentPage : Nat
  pc : MainPc
  wg : Nat
  sem : Nat
  workers : List Worker
  quotesChan : List Quote
  closed : Bool
  closer : CloserPc
  allQuotes : List Quote
  panicked : Bool
deriving DecidableEq, Repr

/-- The state at main.go 46, before the first test of the loop. -/
def initState : State :=
  { hasNext := true, currentPage := 1, pc := .loopCheck, wg := 0, sem := 0,
    workers := [], quotesChan := [], closed := false, closer := .notStarted,
    allQuotes := [], panicked := false }

/-- The goroutine that takes a step. -/
inductive Actor where
  | main
  | closer
  | worker (i : Nat)
deriving DecidableEq, Repr

/-- One step of the main goroutine, main.go 46-80. -/
def stepMain (maxPages : Nat) (s : State) : Option State :=
  match s.pc with
  | .loopCheck =>
    if s.hasNext && decide (s.currentPage ≤ maxPages) then some { s with pc := .wgAdd }
    else some { s with pc := .goCloser }
  | .wgAdd => some { s with wg := s.wg + 1, pc := .semSend }
  | .semSend =>
    if s.sem < semCapacity then some { s with sem := s.sem + 1, pc := .goWorker } else none
  | .goWorker =>
    some { s with workers := s.workers ++ [{ page := s.currentPage, pc := .scrape }],
                  pc := .incrPage }
  | .incrPage => some { s with currentPage := s.currentPage + 1, pc := .loopCheck }
  | .goCloser => some { s with closer := .waiting, pc := .collect }
  | .collect =>
    match s.quotesChan with
    | q :: rest => some { s with quotesChan := rest, allQuotes := s.allQuotes ++ [q] }
    | [] => if s.closed then some { s with pc := .exporting } else none
  | .exporting => none

/-- One step of the goroutine of main.go 71-74: `wg.Wait()` returns when the
counter is zero; `close` of a closed channel panics. -/
def stepCloser (s : State) : Option State :=
  match s.closer with
  | .notStarted => none
  | .waiting => if s.wg = 0 then some { s with closer := .closing } else none
  | .closing =>
    if s.closed then some { s with panicked := true }
    else some { s with closed := true, closer := .finished }
  | .finished => none

/-- One step of the worker `w`, which is the `i`-th goroutine started,
main.go 50-67.  A send blocks while the buffer is full and panics on a closed
channel; `wg.Done()` panics on a zero counter. -/
def stepWorker (env : Env) (s : State) (i : Nat) (w : Worker) : Option State :=
  match w.pc with
  | .scrape =>
    let r := (scrapePage env w.page).1
    match r.err with
    | some _ => some { s with workers := s.workers.set i { w with pc := .releaseSem } }
    | none =>
      some { s with workers := s.workers.set i { w with pc := .publish r.quotes r.hasNext } }
  | .publish (q :: rest) next =>
    if s.closed then some { s with panicked := true }
    else if s.quotesChan.length < chanCapacity then
      some { s with quotesChan := s.quotesChan ++ [q],
                    workers := s.workers.set i { w with pc := .publish rest next } }
    else none
  | .publish [] next =>
    some { s with hasNext := next, workers := s.workers.set i { w with pc := .sleeping } }
  | .sleeping => some { s with workers := s.workers.set i { w with pc := .releaseSem } }
  | .releaseSem =>
    if 0 < s.sem then
      some { s with sem := s.sem - 1, workers := s.workers.set i { w with pc := .wgDone } }
    else none
  | .wgDone =>
    if s.wg = 0 then some { s with panicked := true }
    else some { s with wg := s.wg - 1, workers := s.workers.set i { w with pc := .finished } }
  | .finished => none

/-- One step of the program by the goroutine `a`; `none` when `a` is blocked,
has returned or does not exist, or when the program has panicked. -/
def step (maxPages : Nat) (env : Env) (s : State) (a : Actor) : Option State :=
  if s.panicked then none
  else
    match a with
    | .main => stepMain maxPages s
    | .closer => stepCloser s
    | .worker i =>
      match s.workers[i]? with
      | none => none
      | some w => stepWorker env s i w

/-- The states the program can be in, under every interleaving. -/
inductive Reachable (maxPages : Nat) (env : Env) : State → Prop where
  | init : Reachable maxPages env initState
  | next {s t : State} (a : Actor) :
      Reachable maxPages env s → step maxPages env s a = some t → Reachable maxPages env t

/-- The run that lets the goroutines of `sched` step in turn. -/
def runSchedule (maxPages : Nat) (env : Env) : State → List Actor → Option State
  | s, [] => some s
  | s, a :: rest =>
    match step maxPages env s a with
    | none => none
    | some t => runSchedule maxPages env t rest

/-- The worker `w` with its position moved to `pc`. -/
def Worker.goto (w : Worker) (pc : WorkerPc) : Worker := { w with pc := pc }

/-- The steps of `step`, one rule per statement and outcome.  This relation
is `step` read as a case list (`step_cases`); the invariants are proved by
cases on it. -/
inductive Step (maxPages : Nat) (env : Env) (s : State) : State → Prop where
  | loopEnter : s.panicked = false → s.pc = .loopCheck → s.hasNext = true →
      s.currentPage ≤ maxPages → Step maxPages env s { s with pc := .wgAdd }
  | loopExit : s.panicked = false → s.pc = .loopCheck →
      ¬ (s.hasNext = true ∧ s.currentPage ≤ maxPages) →
      Step maxPages env s { s with pc := .goCloser }
  | wgAdd : s.panicked = false → s.pc = .wgAdd →
      Step maxPages env s { s with wg := s.wg + 1, pc := .semSend }
  | semSend : s.panicked = false → s.pc = .semSend → s.sem < semCapacity →
      Step maxPages env s { s with sem := s.sem + 1, pc := .goWorker }
  | goWorker : s.panicked = false → s.pc = .goWorker →
      Step maxPages env s
        { s with workers := s.workers ++ [{ page := s.currentPage, pc := .scrape }],
                 pc := .incrPage }
  | incrPage : s.panicked = false → s.pc = .incrPage →
      Step maxPages env s { s with currentPage := s.currentPage + 1, pc := .loopCheck }
  | goCloser : s.panicked = false → s.pc = .goCloser →
      Step maxPages env s { s with closer := .waiting, pc := .collect }
  | receive (q : Quote) (rest : List Quote) : s.panicked = false → s.pc = .collect →
      s.quotesChan = q :: rest →
      Step maxPages env s { s with quotesChan := rest, allQuotes := s.allQuotes ++ [q] }
  | rangeEnd : s.panicked = false → s.pc = .collect → s.quotesChan = [] → s.closed = true →
      Step maxPages env s { s with pc := .exporting }
  | waitReturn : s.panicked = false → s.closer = .waiting → s.wg = 0 →
      Step maxPages env s { s with closer := .closing }
  | closePanic : s.panicked = false → s.closer = .closing → s.closed = true →
      Step maxPages env s { s with panicked := true }
  | close : s.panicked = false → s.closer = .closing → s.closed = false →
      Step maxPages env s { s with closed := true, closer := .finished }
  | scrapeError (i : Nat) (w : Worker) (e : ScrapeError) : s.panicked = false →
      s.workers[i]? = some w → w.pc = .scrape → (scrapePage env w.page).1.err = some e →
      Step maxPages env s { s with workers := s.workers.set i (w.goto .releaseSem) }
  | scrapeOk (i : Nat) (w : Worker) : s.panicked = false →
      s.workers[i]? = some w → w.pc = .scrape → (scrapePage env w.page).1.err = none →
      Step maxPages env s
        { s with
          workers :=
            s.workers.set i
              (w.goto
                (WorkerPc.publish (scrapePage env w.page).1.quotes
                  (scrapePage env w.page).1.hasNext)) }
  | sendPanic (i : Nat) (w : Worker) (q : Quote) (rest : List Quote) (next : Bool) :
      s.panicked = false → s.workers[i]? = some w → w.pc = .publish (q :: rest) next →
      s.closed = true → Step maxPages env s { s with panicked := true }
  | send (i : Nat) (w : Worker) (q : Quote) (rest : List Quote) (next : Bool) :
      s.panicked = false → s.workers[i]? = some w → w.pc = .publish (q :: rest) next →
      s.closed = false → s.quotesChan.length < chanCapacity →
      Step maxPages env s
        { s with quotesChan := s.quotesChan ++ [q],
                 workers := s.workers.set i (w.goto (.publish rest next)) }
  | setHasNext (i : Nat) (w : Worker) (next : Bool) :
      s.panicked = false → s.workers[i]? = some w → w.pc = .publish [] next →
      Step maxPages env s
        { s with hasNext := next, workers := s.workers.set i (w.goto .sleeping) }
  | wake (i : Nat) (w : Worker) : s.panicked = false → s.workers[i]? = some w →
      w.pc = .sleeping →
      Step maxPages env s { s with workers := s.workers.set i (w.goto .releaseSem) }
  | release (i : Nat) (w : Worker) : s.panicked = false → s.workers[i]? = some w →
      w.pc = .releaseSem → 0 < s.sem →
      Step maxPages env s
        { s with sem := s.sem - 1, workers := s.workers.set i (w.goto .wgDone) }
  | donePanic (i : Nat) (w : Worker) : s.panicked = false → s.workers[i]? = some w →
      w.pc = .wgDone → s.wg = 0 → Step maxPages env s { s with panicked := true }
  | done (i : Nat) (w : Worker) : s.panicked = false → s.workers[i]? = some w →
      w.pc = .wgDone → s.wg ≠ 0 →
      Step maxPages env s
        { s with wg := s.wg - 1, workers := s.workers.set i (w.goto .finished) }

/-- A worker that has been started and has not yet given back its token of
`sem`. -/
def Worker.holding (w : Worker) : Bool :=
  match w.pc with
  | .scrape | .publish _ _ | .sleeping | .releaseSem => true
  | .wgDone | .finished => false

/-- A worker that has not yet called `wg.Done()`. -/
def Worker.pending (w : Worker) : Bool :=
  match w.pc with
  | .finished => false
  | _ => true

/-- A worker that has executed the assignment `hasNext = next` of line 64 or
has returned on the error path. -/
def Worker.pastPublish (w : Worker) : Bool :=
  match w.pc with
  | .scrape | .publish _ _ => false
  | _ => true

/-- The scheduling loop of main.go 46-69 is over. -/
def MainPc.loopOver (pc : MainPc) : Bool :=
  match pc with
  | .goCloser | .collect | .exporting => true
  | _ => false

/-- The quotes a page contributes: those returned by `scrapePage` when it
returns no error, none otherwise (main.go 54-62). -/
def contribution (env : Env) (page : Nat) : List Quote :=
  match (scrapePage env page).1.err with
  | none => (scrapePage env page).1.quotes
  | some _ => []

/-- The elements of a tagged list that carry the tag `i`, in order. -/
def project {α : Type} (i : Nat) (tagged : List (Nat × α)) : List α :=
  (tagged.filter (fun p => p.1 == i)).map Prod.snd

/-- The list `out` is an order-preserving interleaving of the lists `ls`:
its elements can be tagged with indices so that, for every `i`, the elements
tagged `i` are, in order, exactly the `i`-th list of `ls` (and nothing is
tagged with an index outside `ls`). -/
def IsInterleaving {α : Type} (ls : List (List α)) (out : List α) : Prop :=
  ∃ tagged : List (Nat × α), tagged.map Prod.snd = out ∧ ∀ i, project i tagged = ls.getD i []

/-- Some worker has gone past line 64 after an error-free `scrapePage` whose
`hasNext` was `false`: it has written `hasNext = false`. -/
def HasStopper (env : Env) (ws : List Worker) : Prop :=
  ∃ (i : Nat) (w : Worker), ws[i]? = some w ∧ w.pastPublish = true ∧ (scrapePage env w.page).1.err = none ∧
    (scrapePage env w.page).1.hasNext = false

/-- A worker in the loop of line 60 carries the `next` of its error-free
`scrapePage` call. -/
def PublishOk (env : Env) (w : Worker) : Prop :=
  ∀ rest next, w.pc = .publish rest next →
    (scrapePage env w.page).1.err = none ∧ next = (scrapePage env w.page).1.hasNext

/-- The quotes `sent` are what the worker `w` has sent so far: nothing before
`scrapePage` returns, the contribution of its page less the quotes still to
send while it publishes, the whole contribution afterwards. -/
def SentBy (env : Env) (w : Worker) (sent : List Quote) : Prop :=
  match w.pc with
  | .scrape => sent = []
  | .publish rest _ => sent ++ rest = contribution env w.page
  | _ => sent = contribution env w.page

/-- The invariant of the merge: the quotes received so far followed by those
in the buffer are an interleaving of what each worker has sent. -/
def MergeInv (env : Env) (s : State) : Prop :=
  ∃ tagged : List (Nat × Quote), tagged.map Prod.snd = s.allQuotes ++ s.quotesChan ∧
    (∀ i, s.workers.length ≤ i → project i tagged = []) ∧
    ∀ i w, s.workers[i]? = some w → SentBy env w (project i tagged)

/-! ### Invariants of the pool -/

/-- The semaphore invariant: the tokens in `sem` are those of the workers
that hold one, plus the one main has sent when it stands before the `go`
statement; there are at most five. -/
def SemInv (s : State) : Prop :=
  s.workers.countP Worker.holding + (if s.pc = .goWorker then 1 else 0) = s.sem ∧
    s.sem ≤ semCapacity

/-- The invariant of the scheduling loop: the workers started so far are
those of the pages `1, 2, ..., k` in this order, `currentPage` is `k + 1`
(or `k` just before the increment of line 68), `k ≤ maxPages`, and inside the
loop body before the `go` statement `k < maxPages`. -/
structure SchedInv (maxPages : Nat) (s : State) : Prop where
  pages : s.workers.map Worker.page = List.range' 1 s.workers.length
  current : s.currentPage + (if s.pc = .incrPage then 1 else 0) = s.workers.length + 1
  bound : s.workers.length ≤ maxPages
  room : s.pc = .wgAdd ∨ s.pc = .semSend ∨ s.pc = .goWorker → s.workers.length < maxPages

/-- The invariant of the hint `hasNext`: a publishing worker carries the
`next` of its page; when `hasNext` is `false` a worker has written it; and
when the scheduling loop is over, either all `maxPages` pages have been
started or a worker has written `hasNext = false`. -/
structure HintInv (maxPages : Nat) (env : Env) (s : State) : Prop where
  publishing : ∀ w ∈ s.workers, PublishOk env w
  hint : s.hasNext = false → HasStopper env s.workers
  exit : s.pc.loopOver = true → s.workers.length = maxPages ∨ HasStopper env s.workers

/-- The invariant of the shutdown: the counter of `wg` counts the workers
that have not called `Done` (plus the one main has announced and not yet
started); the closer goroutine exists exactly when main is past line 71; it
passes `wg.Wait()` only with a zero counter; the channel is closed only by
it; main goes on to the export only with the channel closed and empty; and no
goroutine panics. -/
structure CloseInv (s : State) : Prop where
  counter : s.wg =
    s.workers.countP Worker.pending + (if s.pc = .semSend ∨ s.pc = .goWorker then 1 else 0)
  started : s.closer = .notStarted ↔ ¬ (s.pc = .collect ∨ s.pc = .exporting)
  waited : s.closer = .closing ∨ s.closer = .finished → s.wg = 0
  closedBy : s.closed = true → s.closer = .finished
  drained : s.pc = .exporting → s.closed = true ∧ s.quotesChan = []
  noPanic : s.panicked = false

/-- No goroutine can take a step. -/
def Stuck (maxPages : Nat) (env : Env) (s : State) : Prop :=
  ∀ a, step maxPages env s a = none

/-! ## Sites used as concrete inputs -/

/-- A site whose every GET fails at the transport layer. -/
def unreachableSite : Env where
  get := fun _ _ => .error "connection refused"
  newDocument := fun _ => .error "not reached"

/-- A site that answers every GET with status 201 and an empty body. -/
def createdSite : Env where
  get := fun _ _ => .ok { StatusCode := 201, Body := "" }
  newDocument := fun _ => .ok { quoteElems := [], nextLength := 0 }

/-- A site whose first GET of a page fails at the transport layer and whose
later GETs are answered with status 404. -/
def flakySite : Env where
  get := fun _ n =>
    if n = 0 then .error "timeout" else .ok { StatusCode := 404, Body := "not found" }
  newDocument := fun _ => .ok { quoteElems := [], nextLength := 0 }

/-- A site like the live one: every page answers 200 and holds `n` quotes and
exactly one `.next` element. -/
def siteWith (n : Nat) : Env where
  get := fun _ _ => .ok { StatusCode := 200, Body := "<html>" }
  newDocument := fun _ =>
    .ok { quoteElems := List.replicate n { text := "t", author := "a" }, nextLength := 1 }

/-- A site as in scenario S2: page 2 answers 500, every other page answers
200 and holds two quotes that carry the URL of the page, and two `.next`
elements. -/
def mixedSite : Env where
  get := fun url _ =>
    if url = pageURL 2 then .ok { StatusCode := 500, Body := url }
    else .ok { StatusCode := 200, Body := url }
  newDocument := fun body =>
    .ok { quoteElems := [{ text := body ++ "#1", author := "a" },
                         { text := body ++ "#2", author := "b" }],
          nextLength := 2 }

/-- The quote of the pages of `siteWith`. -/
def theQuote : Quote := { Text := "t", Author := "a" }

/-! ## Runs used as concrete inputs -/

/-- With `maxPages = 2` on `siteWith 1`: main starts the worker of page 1,
which scrapes, sends its quote and writes `hasNext = false`; main then leaves
the loop, collects, the worker returns, the channel is closed and main goes
on to the export. -/
def earlyStopSchedule : List Actor :=
  [.main, .main, .main, .main, .worker 0, .worker 0, .worker 0, .main, .main, .main, .main,
    .worker 0, .worker 0, .worker 0, .closer, .closer, .main]

/-- The state at the end of `earlyStopSchedule`. -/
def earlyStopState : State :=
  { hasNext := false, currentPage := 2, pc := .exporting, wg := 0, sem := 0,
    workers := [{ page := 1, pc := .finished }], quotesChan := [], closed := true,
    closer := .finished, allQuotes := [theQuote], panicked := false }

/-- With `maxPages = 3` on `mixedSite`: main starts the three workers and
leaves the loop; the workers of pages 3 and 1 send their quotes in turn, the
worker of page 2 returns on the error path; main collects, the channel is
closed and main goes on to the export. -/
def mixedSchedule : List Actor :=
  List.replicate 17 Actor.main ++
    [.worker 2, .worker 0, .worker 1, .worker 2, .worker 0, .worker 2, .worker 0, .worker 1,
      .worker 1, .worker 2, .worker 2, .worker 2, .worker 2, .worker 0, .worker 0, .worker 0,
      .worker 0, .main, .main, .main, .main, .closer, .closer, .main]

/-- The state at the end of `mixedSchedule`. -/
def mixedState : State :=
  { hasNext := true, currentPage := 4, pc := .exporting, wg := 0, sem := 0,
    workers := [{ page := 1, pc := .finished }, { page := 2, pc := .finished },
                { page := 3, pc := .finished }],
    quotesChan := [], closed := true, closer := .finished,
    allQuotes := [{ Text := pageURL 3 ++ "#1", Author := "a" },
                  { Text := pageURL 1 ++ "#1", Author := "a" },
                  { Text := pageURL 3 ++ "#2", Author := "b" },
                  { Text := pageURL 1 ++ "#2", Author := "b" }],
    panicked := false }

/-- With `maxPages = 6` on `siteWith 21`: main starts the workers of pages 1
to 5 and enters the loop body for page 6; each worker scrapes its page and
sends 20 of its 21 quotes. -/
def deadlockSchedule : List Actor :=
  List.replicate 27 Actor.main ++
    (List.range 5).flatMap (fun i => List.replicate 21 (Actor.worker i))

/-- The state at the end of `deadlockSchedule`: the buffer holds 100 quotes,
each of the five workers has one quote left to send, and main stands before
`sem <- struct{}{}` for page 6. -/
def deadlockState : State :=
  { hasNext := true, currentPage := 6, pc := .semSend, wg := 6, sem := 5,
    workers := (List.range 5).map (fun i => { page := i + 1, pc := .publish [theQuote] false }),
    quotesChan := List.replicate 100 theQuote, closed := false, closer := .notStarted,
    allQuotes := [], panicked := false }

end QuoteScraper

/-! # Theorems -/

namespace QuoteScraper

/-! ## scrapePage -/

/-- The retry loop, entered with a positive count, ends with a response or
with an error: the remaining branch of `scrapePage` is never taken. -/
theorem retryLoop_resp_or_err (env : Env) (url : String) (n : Nat) (st : RetryState) :
    (retryLoop env url (n + 1) st).resp ≠ none ∨ (retryLoop env url (n + 1) st).err ≠ none := by
  induction n generalizing st with
  | zero =>
    unfold retryLoop
    cases env.get url st.issued <;> simp [retryLoop]
  | succ k ih =>
    unfold retryLoop
    cases env.get url st.issued with
    | ok r => simp
    | error e => exact ih _

/-- C2: when every GET of a page fails at the transport layer, `scrapePage`
issues exactly 3 GETs and returns the error of the last one, with no quotes
and `hasNext = false`. -/
theorem scrapePage_transport_failure (env : Env) (page : Nat) (e : Nat → String)
    (h : ∀ n, env.get (pageURL page) n = .error (e n)) :
    getCount (scrapePage env page).2 = 3 ∧
      (scrapePage env page).1 =
        { quotes := [], hasNext := false, err := some (.transport (e 2)) } := by
  simp [scrapePage, retryLoop, h, getCount]

/-- Witness of C2 on a site that refuses every connection. -/
theorem scrapePage_transport_failure_witness :
    (∀ n, unreachableSite.get (pageURL 7) n = .error ((fun _ => "connection refused") n)) ∧
      getCount (scrapePage unreachableSite 7).2 = 3 ∧
      (scrapePage unreachableSite 7).1 =
        { quotes := [], hasNext := false, err := some (.transport "connection refused") } :=
  ⟨fun _ => rfl,
    scrapePage_transport_failure unreachableSite 7 (fun _ => "connection refused") (fun _ => rfl)⟩

/-- C3, counterexample: the status 201 is a 2xx code, and a page answered
with 201 makes `scrapePage` return the status error carrying 201 instead of
parsing the body. -/
theorem scrapePage_status_201 :
    ((200 : Int) ≤ 201 ∧ (201 : Int) ≤ 299) ∧
      (scrapePage createdSite 1).1 =
        { quotes := [], hasNext := false, err := some (.status 201) } := by
  decide

/-- C3, amended: when the GET of a page succeeds at the transport layer (at
the first attempt or after `k < 3` failed ones) with status code `c`,
`scrapePage` returns the status error carrying `c` exactly when `c ≠ 200`; in
that case it has issued no further GET and returns no quotes; for `c = 200`
it parses the body and returns the parse error or the extracted quotes. -/
theorem scrapePage_status (env : Env) (page k : Nat) (resp : Response) (e : Nat → String)
    (hk : k < 3) (hfail : ∀ n, n < k → env.get (pageURL page) n = .error (e n))
    (hok : env.get (pageURL page) k = .ok resp) :
    ((scrapePage env page).1.err = some (.status resp.StatusCode) ↔ resp.StatusCode ≠ 200) ∧
      (resp.StatusCode ≠ 200 →
        (scrapePage env page).1 =
            { quotes := [], hasNext := false, err := some (.status resp.StatusCode) } ∧
          getCount (scrapePage env page).2 = k + 1) ∧
      (resp.StatusCode = 200 →
        (scrapePage env page).1 =
          match env.newDocument resp.Body with
          | .error pe => { quotes := [], hasNext := false, err := some (.parse pe) }
          | .ok doc =>
            { quotes := extractQuotes doc, hasNext := decide (doc.nextLength > 1),
              err := none }) := by
  have h3 : k = 0 ∨ k = 1 ∨ k = 2 := by omega
  rcases h3 with rfl | rfl | rfl
  · by_cases hc : resp.StatusCode = 200
    · cases hd : env.newDocument resp.Body <;>
        simp [scrapePage, retryLoop, hok, hc, hd, StatusOK, getCount]
    · simp [scrapePage, retryLoop, hok, hc, StatusOK, getCount]
  · have h0 := hfail 0 (by omega)
    by_cases hc : resp.StatusCode = 200
    · cases hd : env.newDocument resp.Body <;>
        simp [scrapePage, retryLoop, hok, h0, hc, hd, StatusOK, getCount]
    · simp [scrapePage, retryLoop, hok, h0, hc, StatusOK, getCount]
  · have h0 := hfail 0 (by omega)
    have h1 := hfail 1 (by omega)
    by_cases hc : resp.StatusCode = 200
    · cases hd : env.newDocument resp.Body <;>
        simp [scrapePage, retryLoop, hok, h0, h1, hc, hd, StatusOK, getCount]
    · simp [scrapePage, retryLoop, hok, h0, h1, hc, StatusOK, getCount]

/-- Witness of the amended C3: the first GET fails, the second is answered
with 404. -/
theorem scrapePage_status_witness :
    (1 < 3 ∧ (∀ n, n < 1 → flakySite.get (pageURL 3) n = .error ((fun _ => "timeout") n)) ∧
        flakySite.get (pageURL 3) 1 = .ok { StatusCode := 404, Body := "not found" }) ∧
      ((scrapePage flakySite 3).1.err = some (.status 404) ↔ (404 : Int) ≠ 200) ∧
      ((404 : Int) ≠ 200 →
        (scrapePage flakySite 3).1 =
            { quotes := [], hasNext := false, err := some (.status 404) } ∧
          getCount (scrapePage flakySite 3).2 = 1 + 1) ∧
      ((404 : Int) = 200 →
        (scrapePage flakySite 3).1 =
          match flakySite.newDocument "not found" with
          | .error pe => { quotes := [], hasNext := false, err := some (.parse pe) }
          | .ok doc =>
            { quotes := extractQuotes doc, hasNext := decide (doc.nextLength > 1),
              err := none }) :=
  ⟨⟨by decide, fun n hn => by
      have h0 : n = 0 := by omega
      subst h0
      rfl, rfl⟩,
    scrapePage_status flakySite 3 1 { StatusCode := 404, Body := "not found" }
      (fun _ => "timeout") (by decide)
      (fun n hn => by
        have h0 : n = 0 := by omega
        subst h0
        rfl) rfl⟩

/-- C9, the code at the failing input: a page that parses and holds exactly
one `.next` element (and two quotes) is scraped without error, yet the
returned `hasNext` is `false`. -/
theorem scrapePage_one_next_link :
    (siteWith 2).newDocument "<html>" =
        .ok { quoteElems := List.replicate 2 { text := "t", author := "a" }, nextLength := 1 } ∧
      (scrapePage (siteWith 2) 1).1.err = none ∧
      (scrapePage (siteWith 2) 1).1.hasNext = false :=
  ⟨rfl, by decide, by decide⟩

/-- C10, the code at the failing input: for a page whose three GETs fail the
effects are GET, sleep 1 s, GET, sleep 2 s, GET and then a further sleep of
3 s before the error is returned; the sleeps add up to 6 seconds. -/
theorem scrapePage_backoff_trace :
    (scrapePage unreachableSite 1).2 =
        [Effect.httpGet (pageURL 1), Effect.sleep 1, Effect.httpGet (pageURL 1), Effect.sleep 2,
          Effect.httpGet (pageURL 1), Effect.sleep 3] ∧
      totalSleep (scrapePage unreachableSite 1).2 = 6 ∧
      (scrapePage unreachableSite 1).1.err = some (.transport "connection refused") := by
  refine ⟨rfl, ?_, rfl⟩
  simp [scrapePage, retryLoop, unreachableSite, totalSleep]

/-! ## exportToCSV -/

/-- The loop over the quotes, when it ends without error, has handed one row
per quote, in order. -/
theorem writeQuotes_rows {σ : Type} (sink : CsvSink σ) (qs : List Quote) :
    ∀ (s : σ) (rows : List (List String)), (writeQuotes sink s qs rows).2.2 = none →
      (writeQuotes sink s qs rows).2.1 = rows ++ qs.map quoteRow := by
  induction qs with
  | nil =>
    intro s rows _
    simp [writeQuotes]
  | cons q qs ih =>
    intro s rows h
    unfold writeQuotes at h ⊢
    cases hs : sink.write s (quoteRow q) with
    | mk s1 oe =>
      cases oe with
      | some e => simp [hs] at h
      | none =>
        simp only [hs] at h ⊢
        rw [ih s1 _ h]
        simp

/-- The loop over the quotes reports no error when no `Write` fails. -/
theorem writeQuotes_no_error {σ : Type} (sink : CsvSink σ)
    (hw : ∀ s row, (sink.write s row).2 = none) (qs : List Quote) :
    ∀ (s : σ) (rows : List (List String)), (writeQuotes sink s qs rows).2.2 = none := by
  induction qs with
  | nil =>
    intro s rows
    simp [writeQuotes]
  | cons q qs ih =>
    intro s rows
    unfold writeQuotes
    have h := hw s (quoteRow q)
    cases hs : sink.write s (quoteRow q) with
    | mk s1 oe =>
      rw [hs] at h
      simp only at h
      subst h
      exact ih s1 _

/-- When the file can be created and no `Write` fails, `exportToCSV` returns
nil. -/
theorem exportToCSV_no_error {σ : Type} (sink : CsvSink σ) (fileName : String)
    (qs : List Quote) (s0 : σ) (hc : sink.create fileName = .ok s0)
    (hw : ∀ s row, (sink.write s row).2 = none) :
    (exportToCSV sink fileName qs).err = none := by
  have h := hw s0 headerRow
  cases hs : sink.write s0 headerRow with
  | mk s1 oe =>
    rw [hs] at h
    simp only at h
    subst h
    have hq := writeQuotes_no_error sink hw qs s1 [headerRow]
    simp [exportToCSV, hc, hs, hq]

/-- The loop over the quotes, when it ends without error, has called `Write`
on the row of each quote in turn. -/
theorem writeQuotes_state {σ : Type} (sink : CsvSink σ) (qs : List Quote) :
    ∀ (s : σ) (rows : List (List String)), (writeQuotes sink s qs rows).2.2 = none →
      (writeQuotes sink s qs rows).1 = handRows sink s (qs.map quoteRow) := by
  induction qs with
  | nil =>
    intro s rows _
    simp [writeQuotes, handRows]
  | cons q qs ih =>
    intro s rows h
    unfold writeQuotes at h ⊢
    cases hs : sink.write s (quoteRow q) with
    | mk s1 oe =>
      cases oe with
      | some e => simp [hs] at h
      | none =>
        simp only [hs] at h ⊢
        rw [ih s1 _ h]
        simp [handRows, hs]

/-- Under the traced sink the loop over the quotes does what it does under
the sink itself, and the log of the writer grows by the rows of the calls. -/
theorem writeQuotes_traced {σ : Type} (sink : CsvSink σ) (qs : List Quote) :
    ∀ (s : σ) (rows : List (List String)),
      writeQuotes (traced sink) (s, rows) qs rows =
        (((writeQuotes sink s qs rows).1, (writeQuotes sink s qs rows).2.1),
          (writeQuotes sink s qs rows).2.1, (writeQuotes sink s qs rows).2.2) := by
  induction qs with
  | nil =>
    intro s rows
    simp [writeQuotes]
  | cons q qs ih =>
    intro s rows
    unfold writeQuotes
    cases hs : sink.write s (quoteRow q) with
    | mk s1 oe =>
      cases oe with
      | some e => simp [traced, hs]
      | none =>
        have hw : (traced sink).write (s, rows) (quoteRow q) =
            ((s1, rows ++ [quoteRow q]), none) := by
          simp [traced, hs]
        simp only [hw]
        exact ih s1 (rows ++ [quoteRow q])

/-- Under the traced sink `exportToCSV` returns what it returns under the
sink itself, and the log of the writer at the end holds the rows of the
calls of `Write`. -/
theorem exportToCSV_traced {σ : Type} (sink : CsvSink σ) (fileName : String)
    (qs : List Quote) :
    (exportToCSV (traced sink) fileName qs).err = (exportToCSV sink fileName qs).err ∧
      (exportToCSV (traced sink) fileName qs).final =
        (exportToCSV sink fileName qs).final.map
          (fun s => (s, (exportToCSV sink fileName qs).rows)) := by
  cases hc : sink.create fileName with
  | error e =>
    have hct : (traced sink).create fileName = .error e := by simp [traced, hc]
    simp [exportToCSV, hc, hct]
  | ok s0 =>
    have hct : (traced sink).create fileName = .ok (s0, []) := by simp [traced, hc]
    cases hs : sink.write s0 headerRow with
    | mk s1 oe =>
      cases oe with
      | some e =>
        have hw : (traced sink).write (s0, []) headerRow = ((s1, [headerRow]), some e) := by
          simp [traced, hs]
        simp [exportToCSV, hc, hct, hs, hw, traced]
      | none =>
        have hw : (traced sink).write (s0, []) headerRow = ((s1, [headerRow]), none) := by
          simp [traced, hs]
        have hq := writeQuotes_traced sink qs s1 [headerRow]
        simp only [exportToCSV, hc, hct, hs, hw, hq]
        simp [traced]

/-- C5: whenever `exportToCSV` meets no I/O error (it returns nil; this is
the case when the file is created and no `Write` fails, see
`exportToCSV_no_error`), the writer has been handed exactly `len(qs) + 1`
rows: the log that the traced writer keeps of its `Write` calls is the header
row `["Quote", "Author"]`, then for each quote, in order, the row
`[q.Text, q.Author]` with both fields as they are, and for the empty list the
header row only.  Tracing changes nothing (the returned error is the same),
and the sink itself ends in the state reached from the created file by
`Write` on these rows in turn, then `Flush`, then `Close`. -/
theorem exportToCSV_rows {σ : Type} (sink : CsvSink σ) (fileName : String) (qs : List Quote)
    (h : (exportToCSV sink fileName qs).err = none) :
    (exportToCSV (traced sink) fileName qs).err = none ∧
      (exportToCSV (traced sink) fileName qs).final.map Prod.snd =
        some (["Quote", "Author"] :: qs.map (fun q => [q.Text, q.Author])) ∧
      (exportToCSV (traced sink) fileName qs).final.map (fun st => st.2.length) =
        some (qs.length + 1) ∧
      (qs = [] →
        (exportToCSV (traced sink) fileName qs).final.map Prod.snd =
          some [["Quote", "Author"]]) ∧
      (∃ s0, sink.create fileName = .ok s0 ∧
        (exportToCSV sink fileName qs).final =
          some (sink.close (sink.flush
            (handRows sink s0 (["Quote", "Author"] :: qs.map (fun q => [q.Text, q.Author])))))) ∧
      (exportToCSV sink fileName qs).rows =
        ["Quote", "Author"] :: qs.map (fun q => [q.Text, q.Author]) := by
  have hmain : (exportToCSV sink fileName qs).rows = headerRow :: qs.map quoteRow ∧
      ∃ s0, sink.create fileName = .ok s0 ∧
        (exportToCSV sink fileName qs).final =
          some (sink.close (sink.flush (handRows sink s0 (headerRow :: qs.map quoteRow)))) := by
    unfold exportToCSV at h ⊢
    cases hc : sink.create fileName with
    | error e => simp [hc] at h
    | ok s0 =>
      simp only [hc] at h ⊢
      cases hs : sink.write s0 headerRow with
      | mk s1 oe =>
        cases oe with
        | some e => simp [hs] at h
        | none =>
          simp only [hs] at h ⊢
          have hq := writeQuotes_rows sink qs s1 [headerRow] h
          have hst := writeQuotes_state sink qs s1 [headerRow] h
          refine ⟨by simpa using hq, s0, rfl, ?_⟩
          simp only [hst]
          simp [handRows, hs]
  obtain ⟨hrows, s0, hc, hfinal⟩ := hmain
  obtain ⟨hterr, htfinal⟩ := exportToCSV_traced sink fileName qs
  have hlog : (exportToCSV (traced sink) fileName qs).final.map Prod.snd =
      some (headerRow :: qs.map quoteRow) := by
    rw [htfinal, hfinal, hrows]
    rfl
  refine ⟨by rw [hterr]; exact h, hlog, ?_, ?_, ⟨s0, hc, hfinal⟩, hrows⟩
  · rw [htfinal, hfinal, hrows]
    simp
  · intro hq
    rw [hlog, hq]
    rfl

/-- Witness of C5 on the in-memory sink, with two quotes whose text has
blanks around it. -/
theorem exportToCSV_rows_witness :
    (exportToCSV memorySink "quotes.csv"
        [{ Text := " A ", Author := "X" }, { Text := "B", Author := "Y" }]).err = none ∧
      (exportToCSV (traced memorySink) "quotes.csv"
        [{ Text := " A ", Author := "X" }, { Text := "B", Author := "Y" }]).err = none ∧
      (exportToCSV (traced memorySink) "quotes.csv"
        [{ Text := " A ", Author := "X" }, { Text := "B", Author := "Y" }]).final.map Prod.snd =
        some (["Quote", "Author"] ::
          [{ Text := " A ", Author := "X" }, { Text := "B", Author := "Y" }].map
            (fun q : Quote => [q.Text, q.Author])) ∧
      (exportToCSV (traced memorySink) "quotes.csv"
        [{ Text := " A ", Author := "X" }, { Text := "B", Author := "Y" }]).final.map
          (fun st => st.2.length) =
        some ([({ Text := " A ", Author := "X" } : Quote), { Text := "B", Author := "Y" }].length
          + 1) ∧
      ([({ Text := " A ", Author := "X" } : Quote), { Text := "B", Author := "Y" }] = [] →
        (exportToCSV (traced memorySink) "quotes.csv"
          [{ Text := " A ", Author := "X" }, { Text := "B", Author := "Y" }]).final.map Prod.snd =
          some [["Quote", "Author"]]) ∧
      (∃ s0, memorySink.create "quotes.csv" = .ok s0 ∧
        (exportToCSV memorySink "quotes.csv"
          [{ Text := " A ", Author := "X" }, { Text := "B", Author := "Y" }]).final =
          some (memorySink.close (memorySink.flush
            (handRows memorySink s0 (["Quote", "Author"] ::
              [{ Text := " A ", Author := "X" }, { Text := "B", Author := "Y" }].map
                (fun q : Quote => [q.Text, q.Author])))))) ∧
      (exportToCSV memorySink "quotes.csv"
        [{ Text := " A ", Author := "X" }, { Text := "B", Author := "Y" }]).rows =
        ["Quote", "Author"] ::
          [{ Text := " A ", Author := "X" }, { Text := "B", Author := "Y" }].map
            (fun q : Quote => [q.Text, q.Author]) :=
  ⟨rfl, exportToCSV_rows memorySink "quotes.csv" _ rfl⟩

/-- C4, the code at the failing input: on a device that can be created but
rejects every write, with two short quotes, the only write to the file is the
one of the deferred `Flush`; it fails (the writer holds the error
afterwards), yet `exportToCSV` returns nil, `main` exits with code 0 and
prints the summary line. -/
theorem exportToCSV_full_device :
    (exportToCSV fullDevice "/dev/full"
        [{ Text := "A", Author := "X" }, { Text := "B", Author := "Y" }]).err = none ∧
      (exportToCSV fullDevice "/dev/full"
        [{ Text := "A", Author := "X" }, { Text := "B", Author := "Y" }]).final =
        some { buffered := 21, err := some noSpace } ∧
      finish fullDevice "/dev/full"
        [{ Text := "A", Author := "X" }, { Text := "B", Author := "Y" }] =
        { code := 0, stdout := "Scraped 2 quotes and saved to /dev/full" } := by
  decide

/-! ## The worker pool -/

/-- Every step of `step` is one of the rules of `Step`. -/
theorem step_cases (maxPages : Nat) (env : Env) (s t : State) (a : Actor)
    (hstep : step maxPages env s a = some t) : Step maxPages env s t := by
  unfold step at hstep
  split at hstep
  · simp at hstep
  · rename_i hp
    have hp : s.panicked = false := by simpa using hp
    cases a with
    | main =>
      simp only [stepMain] at hstep
      split at hstep
      · rename_i hpc
        split at hstep
        · rename_i hc
          simp at hc
          cases hstep
          exact Step.loopEnter hp hpc hc.1 hc.2
        · rename_i hc
          simp at hc
          cases hstep
          exact Step.loopExit hp hpc (by simpa using hc)
      · rename_i hpc
        cases hstep
        exact Step.wgAdd hp hpc
      · rename_i hpc
        split at hstep
        · rename_i hc
          cases hstep
          exact Step.semSend hp hpc hc
        · simp at hstep
      · rename_i hpc
        cases hstep
        exact Step.goWorker hp hpc
      · rename_i hpc
        cases hstep
        exact Step.incrPage hp hpc
      · rename_i hpc
        cases hstep
        exact Step.goCloser hp hpc
      · rename_i hpc
        split at hstep
        · rename_i q rest hq
          cases hstep
          exact Step.receive q rest hp hpc hq
        · rename_i hq
          split at hstep
          · rename_i hc
            cases hstep
            exact Step.rangeEnd hp hpc hq hc
          · simp at hstep
      · simp at hstep
    | closer =>
      simp only [stepCloser] at hstep
      split at hstep
      · simp at hstep
      · rename_i hpc
        split at hstep
        · rename_i hc
          cases hstep
          exact Step.waitReturn hp hpc hc
        · simp at hstep
      · rename_i hpc
        split at hstep
        · rename_i hc
          cases hstep
          exact Step.closePanic hp hpc hc
        · rename_i hc
          cases hstep
          exact Step.close hp hpc (by simpa using hc)
      · simp at hstep
    | worker i =>
      simp only at hstep
      split at hstep
      · simp at hstep
      · rename_i w hw
        simp only [stepWorker] at hstep
        split at hstep
        · rename_i hpc
          split at hstep
          · rename_i e he
            cases hstep
            exact Step.scrapeError i w e hp hw hpc he
          · rename_i he
            cases hstep
            exact Step.scrapeOk i w hp hw hpc he
        · rename_i q rest next hpc
          split at hstep
          · rename_i hc
            cases hstep
            exact Step.sendPanic i w q rest next hp hw hpc hc
          · rename_i hc
            split at hstep
            · rename_i hl
              cases hstep
              exact Step.send i w q rest next hp hw hpc (by simpa using hc) hl
            · simp at hstep
        · rename_i next hpc
          cases hstep
          exact Step.setHasNext i w next hp hw hpc
        · rename_i hpc
          cases hstep
          exact Step.wake i w hp hw hpc
        · rename_i hpc
          split at hstep
          · rename_i hc
            cases hstep
            exact Step.release i w hp hw hpc hc
          · simp at hstep
        · rename_i hpc
          split at hstep
          · rename_i hc
            cases hstep
            exact Step.donePanic i w hp hw hpc hc
          · rename_i hc
            cases hstep
            exact Step.done i w hp hw hpc hc
        · simp at hstep

/-- Induction over the reachable states, along the rules of `Step`. -/
theorem reachable_induction (maxPages : Nat) (env : Env) (P : State → Prop)
    (h0 : P initState)
    (hs : ∀ s t, Reachable maxPages env s → P s → Step maxPages env s t → P t) :
    ∀ s, Reachable maxPages env s → P s := by
  intro s hr
  induction hr with
  | init => exact h0
  | next a hr hstep ih => exact hs _ _ hr ih (step_cases maxPages env _ _ a hstep)

/-- A run of `runSchedule` from a reachable state ends in a reachable
state. -/
theorem reachable_of_runSchedule (maxPages : Nat) (env : Env) (sched : List Actor) :
    ∀ s t, Reachable maxPages env s → runSchedule maxPages env s sched = some t →
      Reachable maxPages env t := by
  induction sched with
  | nil =>
    intro s t hr h
    simp [runSchedule] at h
    exact h ▸ hr
  | cons a rest ih =>
    intro s t hr h
    unfold runSchedule at h
    cases hs : step maxPages env s a with
    | none => simp [hs] at h
    | some u =>
      simp only [hs] at h
      exact ih u t (Reachable.next a hr hs) h

theorem earlyStop_run :
    runSchedule 2 (siteWith 1) initState earlyStopSchedule = some earlyStopState := by
  decide

theorem earlyStop_reachable : Reachable 2 (siteWith 1) earlyStopState :=
  reachable_of_runSchedule 2 (siteWith 1) earlyStopSchedule _ _ Reachable.init earlyStop_run

theorem mixed_run : runSchedule 3 mixedSite initState mixedSchedule = some mixedState := by
  decide

theorem mixed_reachable : Reachable 3 mixedSite mixedState :=
  reachable_of_runSchedule 3 mixedSite mixedSchedule _ _ Reachable.init mixed_run

set_option maxRecDepth 100000 in
theorem deadlock_run :
    runSchedule 6 (siteWith 21) initState deadlockSchedule = some deadlockState := by
  decide

theorem deadlock_reachable : Reachable 6 (siteWith 21) deadlockState :=
  reachable_of_runSchedule 6 (siteWith 21) deadlockSchedule _ _ Reachable.init deadlock_run

/-- Replacing the `i`-th element `w` by `v` moves the count of a predicate by
the difference between `v` and `w`. -/
theorem countP_set_of_getElem {α : Type} (p : α → Bool) (l : List α) (i : Nat) (w v : α)
    (h : l[i]? = some w) :
    (l.set i v).countP p + (if p w then 1 else 0) = l.countP p + (if p v then 1 else 0) := by
  induction l generalizing i with
  | nil => simp at h
  | cons x xs ih =>
    cases i with
    | zero =>
      simp at h
      subst h
      simp [List.countP_cons]
      omega
    | succ j =>
      simp at h
      have := ih j h
      simp [List.countP_cons]
      omega

/-- An element that satisfies the predicate is counted. -/
theorem countP_pos_of_getElem {α : Type} (p : α → Bool) (l : List α) (i : Nat) (w : α)
    (h : l[i]? = some w) (hp : p w = true) : 0 < l.countP p := by
  rw [List.countP_pos_iff]
  exact ⟨w, List.mem_iff_getElem?.mpr ⟨i, h⟩, hp⟩

@[simp]
theorem Worker.goto_pc (w : Worker) (pc : WorkerPc) : (w.goto pc).pc = pc := rfl

@[simp]
theorem Worker.goto_page (w : Worker) (pc : WorkerPc) : (w.goto pc).page = w.page := rfl

theorem semInv_init : SemInv initState := by
  simp [SemInv, initState, semCapacity]

theorem semInv_step (maxPages : Nat) (env : Env) (s t : State)
    (hinv : SemInv s) (hstep : Step maxPages env s t) : SemInv t := by
  obtain ⟨h1, h2⟩ := hinv
  cases hstep with
  | loopEnter _ hpc _ _ => simp [SemInv, hpc] at h1 ⊢; exact ⟨h1, h2⟩
  | loopExit _ hpc _ => simp [SemInv, hpc] at h1 ⊢; exact ⟨h1, h2⟩
  | wgAdd _ hpc => simp [SemInv, hpc] at h1 ⊢; exact ⟨h1, h2⟩
  | semSend _ hpc hlt => simp [SemInv, hpc] at h1 ⊢; exact ⟨h1, hlt⟩
  | goWorker _ hpc =>
    simp [SemInv, hpc, Worker.holding] at h1 ⊢
    exact ⟨h1, h2⟩
  | incrPage _ hpc => simp [SemInv, hpc] at h1 ⊢; exact ⟨h1, h2⟩
  | goCloser _ hpc => simp [SemInv, hpc] at h1 ⊢; exact ⟨h1, h2⟩
  | receive q rest _ hpc _ => simp [SemInv, hpc] at h1 ⊢; exact ⟨h1, h2⟩
  | rangeEnd _ hpc _ _ => simp [SemInv, hpc] at h1 ⊢; exact ⟨h1, h2⟩
  | waitReturn _ _ _ => exact ⟨h1, h2⟩
  | closePanic _ _ _ => exact ⟨h1, h2⟩
  | close _ _ _ => exact ⟨h1, h2⟩
  | sendPanic i w q rest next _ _ _ _ => exact ⟨h1, h2⟩
  | donePanic i w _ _ _ _ => exact ⟨h1, h2⟩
  | scrapeError i w e _ hw hpc _ =>
    have hc := countP_set_of_getElem Worker.holding s.workers i w (w.goto .releaseSem) hw
    simp [Worker.holding, hpc] at hc
    simp only [SemInv]
    rw [hc]
    exact ⟨h1, h2⟩
  | scrapeOk i w _ hw hpc _ =>
    have hc := countP_set_of_getElem Worker.holding s.workers i w
      (w.goto (.publish (scrapePage env w.page).1.quotes (scrapePage env w.page).1.hasNext)) hw
    simp [Worker.holding, hpc] at hc
    simp only [SemInv]
    rw [hc]
    exact ⟨h1, h2⟩
  | send i w q rest next _ hw hpc _ _ =>
    have hc := countP_set_of_getElem Worker.holding s.workers i w (w.goto (.publish rest next)) hw
    simp [Worker.holding, hpc] at hc
    simp only [SemInv]
    rw [hc]
    exact ⟨h1, h2⟩
  | setHasNext i w next _ hw hpc =>
    have hc := countP_set_of_getElem Worker.holding s.workers i w (w.goto .sleeping) hw
    simp [Worker.holding, hpc] at hc
    simp only [SemInv]
    rw [hc]
    exact ⟨h1, h2⟩
  | wake i w _ hw hpc =>
    have hc := countP_set_of_getElem Worker.holding s.workers i w (w.goto .releaseSem) hw
    simp [Worker.holding, hpc] at hc
    simp only [SemInv]
    rw [hc]
    exact ⟨h1, h2⟩
  | release i w _ hw hpc hpos =>
    have hc := countP_set_of_getElem Worker.holding s.workers i w (w.goto .wgDone) hw
    simp [Worker.holding, hpc] at hc
    simp only [SemInv]
    constructor <;> omega
  | done i w _ hw hpc _ =>
    have hc := countP_set_of_getElem Worker.holding s.workers i w (w.goto .finished) hw
    simp [Worker.holding, hpc] at hc
    simp only [SemInv]
    rw [hc]
    exact ⟨h1, h2⟩

/-- C7: in every reachable state, under every interleaving and for every
`maxPages`, at most 5 workers have been started and have not yet given back
their token of `sem`; the workers that may have an HTTP request open (those
inside `scrapePage`) are among them. -/
theorem holding_workers_le_five (maxPages : Nat) (env : Env) (s : State)
    (hr : Reachable maxPages env s) :
    s.workers.countP Worker.holding ≤ 5 ∧
      s.workers.countP (fun w => decide (w.pc = .scrape)) ≤ 5 := by
  have hinv : SemInv s :=
    reachable_induction maxPages env SemInv semInv_init
      (fun s t _ hi hst => semInv_step maxPages env s t hi hst) s hr
  obtain ⟨h1, h2⟩ := hinv
  have hle : s.workers.countP (fun w => decide (w.pc = .scrape)) ≤
      s.workers.countP Worker.holding := by
    apply List.countP_mono_left
    intro w _ hw
    simp at hw
    simp [Worker.holding, hw]
  simp only [semCapacity] at h2
  constructor <;> omega

/-- Witness of C7: the state in which five workers hold a token, so that the
bound is reached. -/
theorem holding_workers_le_five_witness :
    Reachable 6 (siteWith 21) deadlockState ∧
      deadlockState.workers.countP Worker.holding ≤ 5 ∧
      deadlockState.workers.countP (fun w => decide (w.pc = .scrape)) ≤ 5 :=
  ⟨deadlock_reachable, holding_workers_le_five 6 (siteWith 21) deadlockState deadlock_reachable⟩

/-! ### The scheduling loop -/

/-- Moving the position of the `i`-th worker leaves the page numbers as they
are. -/
theorem map_page_set_goto (l : List Worker) (i : Nat) (w : Worker) (pc : WorkerPc)
    (h : l[i]? = some w) : (l.set i (w.goto pc)).map Worker.page = l.map Worker.page := by
  induction l generalizing i with
  | nil => simp
  | cons x xs ih =>
    cases i with
    | zero =>
      simp at h
      subst h
      simp
    | succ j =>
      simp at h
      simp [ih j h]

theorem schedInv_init (maxPages : Nat) : SchedInv maxPages initState :=
  ⟨by simp [initState], by simp [initState], by simp [initState], by simp [initState]⟩

theorem schedInv_step (maxPages : Nat) (env : Env) (s t : State)
    (hinv : SchedInv maxPages s) (hstep : Step maxPages env s t) : SchedInv maxPages t := by
  obtain ⟨h1, h2, h3, h4⟩ := hinv
  cases hstep with
  | loopEnter _ hpc _ hle =>
    simp only [hpc] at h2
    exact ⟨h1, by simpa using h2, h3, fun _ => by simp at h2; show s.workers.length < maxPages; omega⟩
  | loopExit _ hpc _ =>
    simp only [hpc] at h2
    exact ⟨h1, by simpa using h2, h3, by simp⟩
  | wgAdd _ hpc =>
    simp only [hpc] at h2
    exact ⟨h1, by simpa using h2, h3, fun _ => h4 (Or.inl hpc)⟩
  | semSend _ hpc _ =>
    simp only [hpc] at h2
    exact ⟨h1, by simpa using h2, h3, fun _ => h4 (Or.inr (Or.inl hpc))⟩
  | goWorker _ hpc =>
    simp only [hpc] at h2
    have hlt := h4 (Or.inr (Or.inr hpc))
    simp at h2
    refine ⟨?_, by simp [h2], by simp; omega, by simp⟩
    simp [h1, List.range'_concat, h2]
    omega
  | incrPage _ hpc =>
    simp only [hpc] at h2
    exact ⟨h1, by simpa using h2, h3, by simp⟩
  | goCloser _ hpc =>
    simp only [hpc] at h2
    exact ⟨h1, by simpa using h2, h3, by simp⟩
  | receive q rest _ hpc _ => exact ⟨h1, h2, h3, h4⟩
  | rangeEnd _ hpc _ _ =>
    simp only [hpc] at h2
    exact ⟨h1, by simpa using h2, h3, by simp⟩
  | waitReturn _ _ _ => exact ⟨h1, h2, h3, h4⟩
  | closePanic _ _ _ => exact ⟨h1, h2, h3, h4⟩
  | close _ _ _ => exact ⟨h1, h2, h3, h4⟩
  | sendPanic i w q rest next _ _ _ _ => exact ⟨h1, h2, h3, h4⟩
  | donePanic i w _ _ _ _ => exact ⟨h1, h2, h3, h4⟩
  | scrapeError i w e _ hw _ _ =>
    exact ⟨by simp [map_page_set_goto _ _ _ _ hw, h1], by simpa using h2, by simpa using h3,
      by simpa using h4⟩
  | scrapeOk i w _ hw _ _ =>
    exact ⟨by simp [map_page_set_goto _ _ _ _ hw, h1], by simpa using h2, by simpa using h3,
      by simpa using h4⟩
  | send i w q rest next _ hw _ _ _ =>
    exact ⟨by simp [map_page_set_goto _ _ _ _ hw, h1], by simpa using h2, by simpa using h3,
      by simpa using h4⟩
  | setHasNext i w next _ hw _ =>
    exact ⟨by simp [map_page_set_goto _ _ _ _ hw, h1], by simpa using h2, by simpa using h3,
      by simpa using h4⟩
  | wake i w _ hw _ =>
    exact ⟨by simp [map_page_set_goto _ _ _ _ hw, h1], by simpa using h2, by simpa using h3,
      by simpa using h4⟩
  | release i w _ hw _ _ =>
    exact ⟨by simp [map_page_set_goto _ _ _ _ hw, h1], by simpa using h2, by simpa using h3,
      by simpa using h4⟩
  | done i w _ hw _ _ =>
    exact ⟨by simp [map_page_set_goto _ _ _ _ hw, h1], by simpa using h2, by simpa using h3,
      by simpa using h4⟩

theorem schedInv_of_reachable (maxPages : Nat) (env : Env) (s : State)
    (hr : Reachable maxPages env s) : SchedInv maxPages s :=
  reachable_induction maxPages env (SchedInv maxPages) (schedInv_init maxPages)
    (fun s t _ hi hst => schedInv_step maxPages env s t hi hst) s hr

/-- A property of all workers survives the replacement of one of them by a
worker that has it. -/
theorem forall_mem_set {α : Type} (P : α → Prop) (l : List α) (i : Nat) (v : α)
    (h : ∀ x ∈ l, P x) (hv : P v) : ∀ x ∈ l.set i v, P x := by
  intro x hx
  rcases List.mem_or_eq_of_mem_set hx with hx | hx
  · exact h x hx
  · exact hx ▸ hv

/-- A stopper stays one when a worker moves on, provided the move does not
take a worker back before line 64. -/
theorem hasStopper_set (env : Env) (ws : List Worker) (i : Nat) (w : Worker) (pc : WorkerPc)
    (hw : ws[i]? = some w) (hmono : w.pastPublish = true → (w.goto pc).pastPublish = true)
    (h : HasStopper env ws) : HasStopper env (ws.set i (w.goto pc)) := by
  obtain ⟨j, w0, hj, hp, he, hn⟩ := h
  by_cases hij : i = j
  · subst hij
    rw [hw] at hj
    cases hj
    have hlt : i < ws.length := (List.getElem?_eq_some_iff.mp hw).1
    exact ⟨i, w.goto pc, by simp [hlt], hmono hp, he, hn⟩
  · exact ⟨j, w0, by simp [List.getElem?_set_ne hij, hj], hp, he, hn⟩

/-- A stopper stays one when a worker is started. -/
theorem hasStopper_append (env : Env) (ws : List Worker) (v : Worker)
    (h : HasStopper env ws) : HasStopper env (ws ++ [v]) := by
  obtain ⟨j, w0, hj, hp, he, hn⟩ := h
  have hlt : j < ws.length := (List.getElem?_eq_some_iff.mp hj).1
  exact ⟨j, w0, by rw [List.getElem?_append_left hlt]; exact hj, hp, he, hn⟩

theorem hintInv_init (maxPages : Nat) (env : Env) : HintInv maxPages env initState :=
  ⟨by simp [initState], by simp [initState], by simp [initState, MainPc.loopOver]⟩

theorem hintInv_step (maxPages : Nat) (env : Env) (s t : State) (hsched : SchedInv maxPages s)
    (hinv : HintInv maxPages env s) (hstep : Step maxPages env s t) :
    HintInv maxPages env t := by
  obtain ⟨h1, h2, h3⟩ := hinv
  cases hstep with
  | loopEnter _ hpc _ hle => exact ⟨h1, h2, by simp [MainPc.loopOver]⟩
  | loopExit _ hpc hno =>
    refine ⟨h1, h2, fun _ => ?_⟩
    have hcur := hsched.current
    have hb := hsched.bound
    simp only [hpc] at hcur
    simp at hcur
    cases hn : s.hasNext with
    | false => exact Or.inr (h2 hn)
    | true =>
      left
      have : ¬ s.currentPage ≤ maxPages := fun hle => hno ⟨hn, hle⟩
      show s.workers.length = maxPages
      omega
  | wgAdd _ hpc => exact ⟨h1, h2, by simp [MainPc.loopOver]⟩
  | semSend _ hpc _ => exact ⟨h1, h2, by simp [MainPc.loopOver]⟩
  | goWorker _ hpc =>
    refine ⟨?_, fun hn => hasStopper_append env _ _ (h2 hn), by simp [MainPc.loopOver]⟩
    intro w hw
    simp at hw
    rcases hw with hw | hw
    · exact h1 w hw
    · subst hw
      intro rest next hc
      simp at hc
  | incrPage _ hpc => exact ⟨h1, h2, by simp [MainPc.loopOver]⟩
  | goCloser _ hpc => exact ⟨h1, h2, fun _ => h3 (by simp [hpc, MainPc.loopOver])⟩
  | receive q rest _ hpc _ => exact ⟨h1, h2, h3⟩
  | rangeEnd _ hpc _ _ => exact ⟨h1, h2, fun _ => h3 (by simp [hpc, MainPc.loopOver])⟩
  | waitReturn _ _ _ => exact ⟨h1, h2, h3⟩
  | closePanic _ _ _ => exact ⟨h1, h2, h3⟩
  | close _ _ _ => exact ⟨h1, h2, h3⟩
  | sendPanic i w q rest next _ _ _ _ => exact ⟨h1, h2, h3⟩
  | donePanic i w _ _ _ _ => exact ⟨h1, h2, h3⟩
  | scrapeError i w e _ hw hpc _ =>
    have hmono : w.pastPublish = true → (w.goto .releaseSem).pastPublish = true := by
      simp [Worker.pastPublish]
    refine ⟨forall_mem_set _ _ _ _ h1 ?_, fun hn => hasStopper_set env _ _ _ _ hw hmono (h2 hn),
      fun hl => ?_⟩
    · intro rest next hc
      simp at hc
    · rcases h3 hl with h | h
      · left; simpa using h
      · right; exact hasStopper_set env _ _ _ _ hw hmono h
  | scrapeOk i w _ hw hpc herr =>
    have hmono : w.pastPublish = true →
        (w.goto (.publish (scrapePage env w.page).1.quotes
          (scrapePage env w.page).1.hasNext)).pastPublish = true := by
      simp [Worker.pastPublish, hpc]
    refine ⟨forall_mem_set _ _ _ _ h1 ?_, fun hn => hasStopper_set env _ _ _ _ hw hmono (h2 hn),
      fun hl => ?_⟩
    · intro rest next hc
      simp at hc
      exact ⟨herr, hc.2.symm⟩
    · rcases h3 hl with h | h
      · left; simpa using h
      · right; exact hasStopper_set env _ _ _ _ hw hmono h
  | send i w q rest next _ hw hpc _ _ =>
    have hmono : w.pastPublish = true → (w.goto (.publish rest next)).pastPublish = true := by
      simp [Worker.pastPublish, hpc]
    have hold := h1 w (List.mem_iff_getElem?.mpr ⟨i, hw⟩) _ _ hpc
    refine ⟨forall_mem_set _ _ _ _ h1 ?_, fun hn => hasStopper_set env _ _ _ _ hw hmono (h2 hn),
      fun hl => ?_⟩
    · intro rest2 next2 hc
      simp at hc
      rw [← hc.2]
      exact hold
    · rcases h3 hl with h | h
      · left; simpa using h
      · right; exact hasStopper_set env _ _ _ _ hw hmono h
  | setHasNext i w next _ hw hpc =>
    have hmono : w.pastPublish = true → (w.goto .sleeping).pastPublish = true := by
      simp [Worker.pastPublish]
    have hold := h1 w (List.mem_iff_getElem?.mpr ⟨i, hw⟩) _ _ hpc
    have hlt : i < s.workers.length := (List.getElem?_eq_some_iff.mp hw).1
    refine ⟨forall_mem_set _ _ _ _ h1 ?_, fun hn => ?_, fun hl => ?_⟩
    · intro rest next hc
      simp at hc
    · refine ⟨i, w.goto .sleeping, by simp [hlt], by simp [Worker.pastPublish], hold.1, ?_⟩
      rw [Worker.goto_page, ← hold.2]
      exact hn
    · rcases h3 hl with h | h
      · left; simpa using h
      · right; exact hasStopper_set env _ _ _ _ hw hmono h
  | wake i w _ hw hpc =>
    have hmono : w.pastPublish = true → (w.goto .releaseSem).pastPublish = true := by
      simp [Worker.pastPublish]
    refine ⟨forall_mem_set _ _ _ _ h1 ?_, fun hn => hasStopper_set env _ _ _ _ hw hmono (h2 hn),
      fun hl => ?_⟩
    · intro rest next hc
      simp at hc
    · rcases h3 hl with h | h
      · left; simpa using h
      · right; exact hasStopper_set env _ _ _ _ hw hmono h
  | release i w _ hw hpc _ =>
    have hmono : w.pastPublish = true → (w.goto .wgDone).pastPublish = true := by
      simp [Worker.pastPublish]
    refine ⟨forall_mem_set _ _ _ _ h1 ?_, fun hn => hasStopper_set env _ _ _ _ hw hmono (h2 hn),
      fun hl => ?_⟩
    · intro rest next hc
      simp at hc
    · rcases h3 hl with h | h
      · left; simpa using h
      · right; exact hasStopper_set env _ _ _ _ hw hmono h
  | done i w _ hw hpc _ =>
    have hmono : w.pastPublish = true → (w.goto .finished).pastPublish = true := by
      simp [Worker.pastPublish]
    refine ⟨forall_mem_set _ _ _ _ h1 ?_, fun hn => hasStopper_set env _ _ _ _ hw hmono (h2 hn),
      fun hl => ?_⟩
    · intro rest next hc
      simp at hc
    · rcases h3 hl with h | h
      · left; simpa using h
      · right; exact hasStopper_set env _ _ _ _ hw hmono h

theorem hintInv_of_reachable (maxPages : Nat) (env : Env) (s : State)
    (hr : Reachable maxPages env s) : HintInv maxPages env s :=
  reachable_induction maxPages env (HintInv maxPages env) (hintInv_init maxPages env)
    (fun s t hrs hi hst =>
      hintInv_step maxPages env s t (schedInv_of_reachable maxPages env s hrs) hi hst) s hr

/-- C1, counterexample: with `maxPages = 2`, on a site whose page 1 holds one
`.next` element, there is a run that ends (main has gone on to the export and
no goroutine can step) in which the worker of page 1 is the only one ever
started: the `hasNext = false` it wrote stopped the loop before page 2. -/
theorem scheduling_stops_before_maxPages :
    1 ≤ 2 ∧ Reachable 2 (siteWith 1) earlyStopState ∧ earlyStopState.pc = .exporting ∧
      earlyStopState.workers.map Worker.page = [1] ∧
      2 ∉ earlyStopState.workers.map Worker.page ∧
      Stuck 2 (siteWith 1) earlyStopState := by
  refine ⟨by decide, earlyStop_reachable, rfl, rfl, by decide, ?_⟩
  intro a
  cases a with
  | main => rfl
  | closer => rfl
  | worker i =>
    cases i with
    | zero => rfl
    | succ j => rfl

/-- C1, amended: for every `maxPages ≥ 1`, in every reachable state (under
every interleaving) the workers started are those of the pages `1, 2, ..., k`
in this order, each once, with `k ≤ maxPages`.  The loop consults `hasNext`:
once it is over, `k ≥ 1` and either `k = maxPages` or some worker has written
`hasNext = false` after an error-free `scrapePage`; so when no page reports
`hasNext = false`, the loop ends only with all of `1..maxPages` started. -/
theorem scheduling_loop (maxPages : Nat) (env : Env) (s : State) (hmax : 1 ≤ maxPages)
    (hr : Reachable maxPages env s) :
    s.workers.map Worker.page = List.range' 1 s.workers.length ∧
      s.workers.length ≤ maxPages ∧
      (s.pc.loopOver = true →
        1 ≤ s.workers.length ∧ (s.workers.length = maxPages ∨ HasStopper env s.workers)) ∧
      ((∀ p, (scrapePage env p).1.err = none → (scrapePage env p).1.hasNext = true) →
        s.pc.loopOver = true → s.workers.map Worker.page = List.range' 1 maxPages) := by
  have hs := schedInv_of_reachable maxPages env s hr
  have hh := hintInv_of_reachable maxPages env s hr
  refine ⟨hs.pages, hs.bound, fun hl => ⟨?_, hh.exit hl⟩, fun hall hl => ?_⟩
  · rcases hh.exit hl with h | ⟨i, w, hw, _⟩
    · omega
    · have := (List.getElem?_eq_some_iff.mp hw).1
      omega
  · rcases hh.exit hl with h | ⟨i, w, hw, _, he, hn⟩
    · rw [hs.pages, h]
    · rw [hall w.page he] at hn
      cases hn

/-- Witness of the amended C1: the run of `mixedSchedule`, where all three
pages are started. -/
theorem scheduling_loop_witness :
    (1 ≤ 3 ∧ Reachable 3 mixedSite mixedState) ∧
      mixedState.workers.map Worker.page = List.range' 1 mixedState.workers.length ∧
      mixedState.workers.length ≤ 3 ∧
      (mixedState.pc.loopOver = true →
        1 ≤ mixedState.workers.length ∧
          (mixedState.workers.length = 3 ∨ HasStopper mixedSite mixedState.workers)) ∧
      ((∀ p, (scrapePage mixedSite p).1.err = none → (scrapePage mixedSite p).1.hasNext = true) →
        mixedState.pc.loopOver = true →
          mixedState.workers.map Worker.page = List.range' 1 3) :=
  ⟨⟨by decide, mixed_reachable⟩,
    scheduling_loop 3 mixedSite mixedState (by decide) mixed_reachable⟩

/-! ### The wait group, the close and the collector -/

theorem closeInv_init : CloseInv initState :=
  ⟨by simp [initState], by simp [initState], by simp [initState], by simp [initState],
    by simp [initState], by simp [initState]⟩

/-- A worker step that keeps the worker pending keeps the invariant when it
touches nothing but the worker (and `hasNext`, `sem`). -/
theorem closeInv_worker (s t : State) (i : Nat) (w : Worker) (pc : WorkerPc)
    (hinv : CloseInv s) (hw : s.workers[i]? = some w) (hp : w.pending = true)
    (hp2 : (w.goto pc).pending = true)
    (hworkers : t.workers = s.workers.set i (w.goto pc)) (hwg : t.wg = s.wg) (hpc : t.pc = s.pc)
    (hcloser : t.closer = s.closer) (hclosed : t.closed = s.closed)
    (hchan : t.quotesChan = s.quotesChan) (hpanic : t.panicked = s.panicked) : CloseInv t := by
  obtain ⟨h1, h2, h3, h4, h5, h6⟩ := hinv
  have hc := countP_set_of_getElem Worker.pending s.workers i w (w.goto pc) hw
  simp only [hp, hp2] at hc
  refine ⟨?_, ?_, ?_, ?_, ?_, ?_⟩
  · rw [hwg, hworkers, hpc, h1]; omega
  · rw [hcloser, hpc]; exact h2
  · rw [hcloser, hwg]; exact h3
  · rw [hcloser, hclosed]; exact h4
  · rw [hpc, hclosed, hchan]; exact h5
  · rw [hpanic]; exact h6

theorem closeInv_step (maxPages : Nat) (env : Env) (s t : State)
    (hinv : CloseInv s) (hstep : Step maxPages env s t) : CloseInv t := by
  have hinv0 := hinv
  obtain ⟨h1, h2, h3, h4, h5, h6⟩ := hinv
  cases hstep with
  | loopEnter _ hpc _ _ =>
    simp only [hpc] at h1 h2 h5
    simp at h1 h2
    exact ⟨by simpa using h1, by simpa using h2, h3, h4, by simp, h6⟩
  | loopExit _ hpc _ =>
    simp only [hpc] at h1 h2 h5
    simp at h1 h2
    exact ⟨by simpa using h1, by simpa using h2, h3, h4, by simp, h6⟩
  | wgAdd _ hpc =>
    simp only [hpc] at h1 h2 h5
    simp at h1 h2
    refine ⟨by simp; omega, by simpa using h2, ?_, h4, by simp, h6⟩
    intro h
    simp [h2] at h
  | semSend _ hpc _ =>
    simp only [hpc] at h1 h2 h5
    simp at h1 h2
    exact ⟨by simpa using h1, by simpa using h2, h3, h4, by simp, h6⟩
  | goWorker _ hpc =>
    simp only [hpc] at h1 h2 h5
    simp at h1 h2
    exact ⟨by simp [Worker.pending]; omega, by simpa using h2, h3, h4, by simp, h6⟩
  | incrPage _ hpc =>
    simp only [hpc] at h1 h2 h5
    simp at h1 h2
    exact ⟨by simpa using h1, by simpa using h2, h3, h4, by simp, h6⟩
  | goCloser _ hpc =>
    simp only [hpc] at h1 h2 h5
    simp at h1 h2
    refine ⟨by simpa using h1, by simp, by simp, ?_, by simp, h6⟩
    intro hc
    have := h4 hc
    simp [h2] at this
  | receive q rest _ hpc _ =>
    simp only [hpc] at h5
    exact ⟨h1, h2, h3, h4, by simp [hpc], h6⟩
  | rangeEnd _ hpc hq hc =>
    simp only [hpc] at h1 h2 h5
    simp at h1 h2
    exact ⟨by simpa using h1, by simpa using h2, h3, h4, fun _ => ⟨hc, hq⟩, h6⟩
  | waitReturn _ hcl hwg =>
    refine ⟨h1, ?_, fun _ => hwg, ?_, h5, h6⟩
    · simp only [hcl] at h2
      simpa using h2
    · intro hc
      have := h4 hc
      simp [hcl] at this
  | closePanic _ hcl hc =>
    have := h4 hc
    simp [hcl] at this
  | close _ hcl hc =>
    refine ⟨h1, ?_, fun _ => h3 (Or.inl hcl), by simp, ?_, h6⟩
    · simp only [hcl] at h2
      simpa using h2
    · intro hpc
      have := (h5 hpc).1
      simp [hc] at this
  | sendPanic i w q rest next _ hw hpc hc =>
    have hwg := h3 (Or.inr (h4 hc))
    have hpos := countP_pos_of_getElem Worker.pending s.workers i w hw (by simp [Worker.pending, hpc])
    omega
  | donePanic i w _ hw hpc hwg =>
    have hpos := countP_pos_of_getElem Worker.pending s.workers i w hw (by simp [Worker.pending, hpc])
    omega
  | scrapeError i w e _ hw hpc _ =>
    exact closeInv_worker s _ i w _ hinv0 hw (by simp [Worker.pending, hpc])
      (by simp [Worker.pending]) rfl rfl rfl rfl rfl rfl rfl
  | scrapeOk i w _ hw hpc _ =>
    exact closeInv_worker s _ i w _ hinv0 hw (by simp [Worker.pending, hpc])
      (by simp [Worker.pending]) rfl rfl rfl rfl rfl rfl rfl
  | send i w q rest next _ hw hpc hc _ =>
    have hcnt := countP_set_of_getElem Worker.pending s.workers i w (w.goto (.publish rest next)) hw
    simp [Worker.pending, hpc] at hcnt
    refine ⟨by simp only [hcnt]; exact h1, h2, h3, h4, ?_, h6⟩
    intro hx
    have := (h5 hx).1
    simp [hc] at this
  | setHasNext i w next _ hw hpc =>
    exact closeInv_worker s _ i w _ hinv0 hw (by simp [Worker.pending, hpc])
      (by simp [Worker.pending]) rfl rfl rfl rfl rfl rfl rfl
  | wake i w _ hw hpc =>
    exact closeInv_worker s _ i w _ hinv0 hw (by simp [Worker.pending, hpc])
      (by simp [Worker.pending]) rfl rfl rfl rfl rfl rfl rfl
  | release i w _ hw hpc _ =>
    exact closeInv_worker s _ i w _ hinv0 hw (by simp [Worker.pending, hpc])
      (by simp [Worker.pending]) rfl rfl rfl rfl rfl rfl rfl
  | done i w _ hw hpc hwg =>
    have hcnt := countP_set_of_getElem Worker.pending s.workers i w (w.goto .finished) hw
    simp [Worker.pending, hpc] at hcnt
    refine ⟨?_, h2, ?_, h4, h5, h6⟩
    · show s.wg - 1 = (s.workers.set i (w.goto .finished)).countP Worker.pending +
        (if s.pc = .semSend ∨ s.pc = .goWorker then 1 else 0)
      omega
    · intro hcl
      have := h3 hcl
      show s.wg - 1 = 0
      omega

theorem closeInv_of_reachable (maxPages : Nat) (env : Env) (s : State)
    (hr : Reachable maxPages env s) : CloseInv s :=
  reachable_induction maxPages env CloseInv closeInv_init
    (fun s t _ hi hst => closeInv_step maxPages env s t hi hst) s hr

/-! ### The merge -/

theorem project_append_singleton {α : Type} (i j : Nat) (q : α) (l : List (Nat × α)) :
    project i (l ++ [(j, q)]) = project i l ++ (if j = i then [q] else []) := by
  by_cases h : j = i
  · simp [project, List.filter_append, h, List.filter_cons]
  · simp [project, List.filter_append, h, List.filter_cons]

theorem mergeInv_init (env : Env) : MergeInv env initState :=
  ⟨[], by simp [initState], by simp [project], by simp [initState]⟩

/-- The invariant only reads the workers and the quotes received or
buffered. -/
theorem mergeInv_congr (env : Env) (s t : State) (hinv : MergeInv env s)
    (hworkers : t.workers = s.workers)
    (hq : t.allQuotes ++ t.quotesChan = s.allQuotes ++ s.quotesChan) : MergeInv env t := by
  obtain ⟨tagged, h1, h2, h3⟩ := hinv
  exact ⟨tagged, by rw [hq]; exact h1, by rw [hworkers]; exact h2, by rw [hworkers]; exact h3⟩

/-- A worker that moves on without sending keeps the invariant when its new
position accounts for the same quotes. -/
theorem mergeInv_worker (env : Env) (s t : State) (i : Nat) (w : Worker) (pc : WorkerPc)
    (hinv : MergeInv env s) (hw : s.workers[i]? = some w)
    (hnew : ∀ sent, SentBy env w sent → SentBy env (w.goto pc) sent)
    (hworkers : t.workers = s.workers.set i (w.goto pc))
    (hall : t.allQuotes = s.allQuotes) (hchan : t.quotesChan = s.quotesChan) :
    MergeInv env t := by
  obtain ⟨tagged, h1, h2, h3⟩ := hinv
  refine ⟨tagged, by rw [hall, hchan]; exact h1, ?_, ?_⟩
  · intro j hj
    rw [hworkers, List.length_set] at hj
    exact h2 j hj
  · intro j x hx
    rw [hworkers] at hx
    by_cases hij : i = j
    · subst hij
      have hlt : i < s.workers.length := (List.getElem?_eq_some_iff.mp hw).1
      rw [List.getElem?_set_self hlt] at hx
      cases hx
      exact hnew _ (h3 i w hw)
    · rw [List.getElem?_set_ne hij] at hx
      exact h3 j x hx

theorem mergeInv_step (maxPages : Nat) (env : Env) (s t : State)
    (hinv : MergeInv env s) (hstep : Step maxPages env s t) : MergeInv env t := by
  cases hstep with
  | loopEnter _ _ _ _ => exact mergeInv_congr env s _ hinv rfl rfl
  | loopExit _ _ _ => exact mergeInv_congr env s _ hinv rfl rfl
  | wgAdd _ _ => exact mergeInv_congr env s _ hinv rfl rfl
  | semSend _ _ _ => exact mergeInv_congr env s _ hinv rfl rfl
  | incrPage _ _ => exact mergeInv_congr env s _ hinv rfl rfl
  | goCloser _ _ => exact mergeInv_congr env s _ hinv rfl rfl
  | rangeEnd _ _ _ _ => exact mergeInv_congr env s _ hinv rfl rfl
  | waitReturn _ _ _ => exact mergeInv_congr env s _ hinv rfl rfl
  | closePanic _ _ _ => exact mergeInv_congr env s _ hinv rfl rfl
  | close _ _ _ => exact mergeInv_congr env s _ hinv rfl rfl
  | sendPanic i w q rest next _ _ _ _ => exact mergeInv_congr env s _ hinv rfl rfl
  | donePanic i w _ _ _ _ => exact mergeInv_congr env s _ hinv rfl rfl
  | receive q rest _ _ hq =>
    exact mergeInv_congr env s _ hinv rfl (by simp [hq])
  | goWorker _ _ =>
    obtain ⟨tagged, h1, h2, h3⟩ := hinv
    refine ⟨tagged, h1, ?_, ?_⟩
    · intro j hj
      simp at hj
      exact h2 j (by omega)
    · intro j x hx
      by_cases hlt : j < s.workers.length
      · rw [List.getElem?_append_left hlt] at hx
        exact h3 j x hx
      · have hle : s.workers.length ≤ j := by omega
        rw [List.getElem?_append_right hle] at hx
        have hj : j = s.workers.length := by
          by_contra hne
          have : j - s.workers.length ≠ 0 := by omega
          obtain ⟨k, hk⟩ := Nat.exists_eq_succ_of_ne_zero this
          rw [hk] at hx
          simp at hx
        subst hj
        simp at hx
        subst hx
        simp only [SentBy]
        exact h2 _ (Nat.le_refl _)
  | scrapeError i w e _ hw hpc herr =>
    refine mergeInv_worker env s _ i w _ hinv hw ?_ rfl rfl rfl
    intro sent hs
    simp only [SentBy, hpc] at hs
    simp only [SentBy, Worker.goto_pc, Worker.goto_page, contribution, herr]
    exact hs
  | scrapeOk i w _ hw hpc herr =>
    refine mergeInv_worker env s _ i w _ hinv hw ?_ rfl rfl rfl
    intro sent hs
    simp only [SentBy, hpc] at hs
    simp only [SentBy, Worker.goto_pc, Worker.goto_page, contribution, herr]
    simp [hs]
  | setHasNext i w next _ hw hpc =>
    refine mergeInv_worker env s _ i w _ hinv hw ?_ rfl rfl rfl
    intro sent hs
    simp only [SentBy, hpc] at hs
    simp only [SentBy, Worker.goto_pc, Worker.goto_page]
    simpa using hs
  | wake i w _ hw hpc =>
    refine mergeInv_worker env s _ i w _ hinv hw ?_ rfl rfl rfl
    intro sent hs
    simp only [SentBy, hpc] at hs
    simp only [SentBy, Worker.goto_pc, Worker.goto_page]
    exact hs
  | release i w _ hw hpc _ =>
    refine mergeInv_worker env s _ i w _ hinv hw ?_ rfl rfl rfl
    intro sent hs
    simp only [SentBy, hpc] at hs
    simp only [SentBy, Worker.goto_pc, Worker.goto_page]
    exact hs
  | done i w _ hw hpc _ =>
    refine mergeInv_worker env s _ i w _ hinv hw ?_ rfl rfl rfl
    intro sent hs
    simp only [SentBy, hpc] at hs
    simp only [SentBy, Worker.goto_pc, Worker.goto_page]
    exact hs
  | send i w q rest next _ hw hpc _ _ =>
    obtain ⟨tagged, h1, h2, h3⟩ := hinv
    have hlt : i < s.workers.length := (List.getElem?_eq_some_iff.mp hw).1
    refine ⟨tagged ++ [(i, q)], by simp [h1], ?_, ?_⟩
    · intro j hj
      simp only [List.length_set] at hj
      rw [project_append_singleton, h2 j hj]
      have : i ≠ j := by omega
      simp [this]
    · intro j x hx
      rw [project_append_singleton]
      by_cases hij : i = j
      · subst hij
        simp only [List.getElem?_set_self hlt] at hx
        cases hx
        have hs := h3 i w hw
        simp only [SentBy, hpc] at hs
        simp only [SentBy, Worker.goto_pc, Worker.goto_page]
        simpa using hs
      · simp only [List.getElem?_set_ne hij] at hx
        simp only [hij, if_false, List.append_nil]
        exact h3 j x hx

theorem mergeInv_of_reachable (maxPages : Nat) (env : Env) (s : State)
    (hr : Reachable maxPages env s) : MergeInv env s :=
  reachable_induction maxPages env (MergeInv env) (mergeInv_init env)
    (fun s t _ hi hst => mergeInv_step maxPages env s t hi hst) s hr

/-! ### Interleavings -/

/-- Every list of an interleaving is a sublist of the result: its elements
keep their order. -/
theorem isInterleaving_sublist {α : Type} (ls : List (List α)) (out : List α)
    (h : IsInterleaving ls out) : ∀ l ∈ ls, l.Sublist out := by
  obtain ⟨tagged, hmap, hproj⟩ := h
  intro l hl
  obtain ⟨i, hi⟩ := List.mem_iff_getElem?.mp hl
  have hp := hproj i
  simp only [List.getD_eq_getElem?_getD, hi, Option.getD_some] at hp
  rw [← hp, ← hmap]
  exact (List.filter_sublist _).map _

/-- Moving the tags down by one after dropping the tag zero. -/
theorem project_shift {α : Type} (i : Nat) (tagged : List (Nat × α)) :
    project i ((tagged.filter (fun p => !(p.1 == 0))).map (fun p => (p.1 - 1, p.2))) =
      project (i + 1) tagged := by
  induction tagged with
  | nil => simp [project]
  | cons p rest ih =>
    obtain ⟨j, q⟩ := p
    cases j with
    | zero =>
      simp only [project] at ih
      simp [project, List.filter_cons, ih]
    | succ k =>
      simp only [project] at ih
      by_cases hk : k = i
      · simp [project, List.filter_cons, ih, hk]
      · simp [project, List.filter_cons, ih, hk]

/-- The result of an interleaving holds every element of every list exactly
once: it is a permutation of their concatenation. -/
theorem isInterleaving_perm {α : Type} (ls : List (List α)) :
    ∀ out : List α, IsInterleaving ls out → out.Perm ls.flatten := by
  induction ls with
  | nil =>
    intro out h
    obtain ⟨tagged, hmap, hproj⟩ := h
    cases tagged with
    | nil =>
      simp at hmap
      subst hmap
      simp
    | cons p rest =>
      have := hproj p.1
      simp [project, List.filter_cons] at this
  | cons l0 ls ih =>
    intro out h
    obtain ⟨tagged, hmap, hproj⟩ := h
    have h0 : project 0 tagged = l0 := by simpa using hproj 0
    have hrest : IsInterleaving ls
        (((tagged.filter (fun p => !(p.1 == 0))).map (fun p => (p.1 - 1, p.2))).map Prod.snd) := by
      refine ⟨_, rfl, fun i => ?_⟩
      rw [project_shift]
      simpa using hproj (i + 1)
    have hperm := ih _ hrest
    have hsplit := List.filter_append_perm (fun p : Nat × α => p.1 == 0) tagged
    have hmap2 := (hsplit.map Prod.snd).symm
    rw [hmap, List.map_append] at hmap2
    have hsnd : ((tagged.filter (fun p => !(p.1 == 0))).map (fun p => (p.1 - 1, p.2))).map Prod.snd
        = (tagged.filter (fun p => !(p.1 == 0))).map Prod.snd := by
      simp [List.map_map, Function.comp_def]
    rw [hsnd] at hperm
    rw [List.flatten_cons]
    refine hmap2.trans ?_
    have : List.map Prod.snd (List.filter (fun p => p.1 == 0) tagged) = l0 := h0
    rw [this]
    exact List.Perm.append_left l0 hperm

/-- C6: in every run that reaches the Exporter, `allQuotes` is an
order-preserving interleaving of the contributions of the scheduled pages
`1..k`, where a page contributes the quotes its `scrapePage` call returned if
it returned no error and nothing otherwise: every quote of every such page
appears exactly once (`allQuotes` is a permutation of the concatenation), the
quotes of one page keep their order (its list is a sublist of `allQuotes`),
and a page that failed contributes nothing while the others are all there. -/
theorem collected_interleaving (maxPages : Nat) (env : Env) (s : State)
    (hr : Reachable maxPages env s) (hex : s.pc = .exporting) :
    IsInterleaving ((List.range' 1 s.workers.length).map (contribution env)) s.allQuotes ∧
      s.allQuotes.Perm ((List.range' 1 s.workers.length).map (contribution env)).flatten ∧
      (∀ p ∈ List.range' 1 s.workers.length, (contribution env p).Sublist s.allQuotes) ∧
      (∀ p, (scrapePage env p).1.err ≠ none → contribution env p = []) ∧
      (∀ p, (scrapePage env p).1.err = none → contribution env p = (scrapePage env p).1.quotes) ∧
      s.workers.map Worker.page = List.range' 1 s.workers.length := by
  have hs := schedInv_of_reachable maxPages env s hr
  have hc := closeInv_of_reachable maxPages env s hr
  obtain ⟨tagged, h1, h2, h3⟩ := mergeInv_of_reachable maxPages env s hr
  have hd := hc.drained hex
  have hwg : s.wg = 0 := hc.waited (Or.inr (hc.closedBy hd.1))
  have hcount : s.workers.countP Worker.pending = 0 := by
    have := hc.counter
    omega
  have hfin : ∀ w ∈ s.workers, w.pc = .finished := by
    intro w hw
    have := (List.countP_eq_zero.mp hcount) w hw
    cases hpc : w.pc <;> simp [Worker.pending, hpc] at this ⊢
  have hmapeq : (List.range' 1 s.workers.length).map (contribution env) =
      s.workers.map (fun w => contribution env w.page) := by
    rw [← hs.pages, List.map_map]
    rfl
  have hinter : IsInterleaving ((List.range' 1 s.workers.length).map (contribution env))
      s.allQuotes := by
    refine ⟨tagged, by simpa [hd.2] using h1, fun i => ?_⟩
    rw [hmapeq]
    by_cases hlt : i < s.workers.length
    · have hw : s.workers[i]? = some s.workers[i] := List.getElem?_eq_getElem hlt
      have hsent := h3 i _ hw
      have hpc := hfin _ (List.getElem_mem hlt)
      simp only [SentBy, hpc] at hsent
      simp [hlt, hsent]
    · have hle : s.workers.length ≤ i := by omega
      rw [h2 i hle]
      simp [List.getElem?_eq_none, hle]
  refine ⟨hinter, isInterleaving_perm _ _ hinter, ?_, ?_, ?_, hs.pages⟩
  · intro p hp
    exact isInterleaving_sublist _ _ hinter _ (List.mem_map_of_mem _ hp)
  · intro p hp
    cases he : (scrapePage env p).1.err with
    | none => exact absurd he hp
    | some e => simp [contribution, he]
  · intro p hp
    simp [contribution, hp]

/-- Witness of C6: the run of `mixedSchedule` on `mixedSite`, where page 2
fails and the quotes of pages 3 and 1 arrive in turn. -/
theorem collected_interleaving_witness :
    (Reachable 3 mixedSite mixedState ∧ mixedState.pc = .exporting) ∧
      IsInterleaving ((List.range' 1 mixedState.workers.length).map (contribution mixedSite))
        mixedState.allQuotes ∧
      mixedState.allQuotes.Perm
        ((List.range' 1 mixedState.workers.length).map (contribution mixedSite)).flatten ∧
      (∀ p ∈ List.range' 1 mixedState.workers.length,
        (contribution mixedSite p).Sublist mixedState.allQuotes) ∧
      (∀ p, (scrapePage mixedSite p).1.err ≠ none → contribution mixedSite p = []) ∧
      (∀ p, (scrapePage mixedSite p).1.err = none →
        contribution mixedSite p = (scrapePage mixedSite p).1.quotes) ∧
      mixedState.workers.map Worker.page = List.range' 1 mixedState.workers.length :=
  ⟨⟨mixed_reachable, rfl⟩, collected_interleaving 3 mixedSite mixedState mixed_reachable rfl⟩

/-! ### The pool can block -/

/-- C8, the code at the failing input: with `maxPages = 6` and 21 quotes on
each page there is a reachable state, without any panic, in which no
goroutine can take a step: the buffer of `quotesChan` holds 100 quotes, each
of the five workers is blocked in its send with a quote left, and main is
blocked in `sem <- struct{}{}` for page 6, before the loop that receives.
No page has finished or failed, and the channel is never closed. -/
theorem pool_deadlock :
    Reachable 6 (siteWith 21) deadlockState ∧ Stuck 6 (siteWith 21) deadlockState ∧
      deadlockState.panicked = false ∧ deadlockState.pc = .semSend ∧
      deadlockState.closed = false ∧ deadlockState.quotesChan.length = 100 ∧
      deadlockState.workers.countP Worker.pending = 5 := by
  refine ⟨deadlock_reachable, ?_, rfl, rfl, rfl, by decide, by decide⟩
  intro a
  cases a with
  | main => rfl
  | closer => rfl
  | worker i =>
    by_cases hi : i < 5
    · interval_cases i <;> rfl
    · have hnone : deadlockState.workers[i]? = none := by
        apply List.getElem?_eq_none
        simp [deadlockState]
        omega
      simp [step, hnone]

end QuoteScraper
